import Mathlib

/-
Verification of the protocol packet composition and codec engine specified
for the tcp-ip-from-scratch repository.  The repository's own scripts are
thin callers of an external packet library; the engine they exercise
(field codec, layer stack, checksum calculator, serializer, parser) is the
system specified in spec.md.  The definitions below are modelled from that
specification and the claims are settled against them.
-/

set_option maxRecDepth 10000

namespace Codec

/-! ## Field descriptor model (spec section 4.1) -/

/-- Modelled from the spec: a `FieldDescriptor` describes one header field by
name and bit width.  Missing from src: the repository contains no codec code,
only callers of an external library. -/
structure FieldDescriptor where
  name : String
  bitWidth : Nat
deriving DecidableEq

/-- Big-endian bit representation of `n`, exactly `w` bits, most significant
bit first. -/
def natToBits : Nat → Nat → List Bool
  | 0, _ => []
  | w + 1, n => natToBits w (n / 2) ++ [n % 2 == 1]

/-- Value of a most-significant-first bit string. -/
def bitsToNat (l : List Bool) : Nat :=
  l.foldl (fun a b => 2 * a + (if b then 1 else 0)) 0

/-- Expand a byte sequence into its bits, most significant bit of each byte
first. -/
def bytesToBits (bs : List Nat) : List Bool :=
  (bs.map (natToBits 8)).flatten

/-- Pack a bit string into bytes, eight bits per byte, most significant bit
first; a trailing group of fewer than eight bits becomes one final byte. -/
def bitsToBytes : List Bool → List Nat
  | [] => []
  | b1 :: b2 :: b3 :: b4 :: b5 :: b6 :: b7 :: b8 :: rest =>
      bitsToNat [b1, b2, b3, b4, b5, b6, b7, b8] :: bitsToBytes rest
  | l => [bitsToNat l]

/-- Total declared bit width of a schema. -/
def totalWidth (schema : List FieldDescriptor) : Nat :=
  (schema.map (·.bitWidth)).sum

/-- Modelled from the spec: `ValueRangeError` is raised when an explicit value
exceeds its declared bit width; it is never silently truncated. -/
inductive CodecError where
  | valueRange (field : String)
deriving DecidableEq

/-- Modelled from the spec: `encode(schema, values)` packs the values of a
fully explicit values mapping (given in field declaration order) into
`totalWidth/8` bytes, most significant bit first, and rejects any value that
exceeds its declared bit width. -/
def encode (schema : List FieldDescriptor) (values : List Nat) :
    Except CodecError (List Nat) :=
  match (schema.zip values).find? (fun p => decide (2 ^ p.1.bitWidth ≤ p.2)) with
  | some p => .error (.valueRange p.1.name)
  | none =>
      .ok (bitsToBytes (((schema.zip values).map
        (fun p => natToBits p.1.bitWidth p.2)).flatten))

/-- Cut a bit string into consecutive runs of the given widths. -/
def splitWidths : List Nat → List Bool → List (List Bool)
  | [], _ => []
  | w :: ws, l => l.take w :: splitWidths ws (l.drop w)

/-- Modelled from the spec: `decode(schema, bytes)` is the exact inverse of
`encode`; it reads each field's declared bit span back out of the byte
sequence, requiring the byte count to match the schema exactly. -/
def decode (schema : List FieldDescriptor) (bytes : List Nat) :
    Option (List Nat) :=
  if 8 * bytes.length = totalWidth schema then
    some ((splitWidths (schema.map (·.bitWidth)) (bytesToBits bytes)).map bitsToNat)
  else none

/-! ## Field names used by the concrete protocol schemas -/

def fDst : String := "dst"
def fSrc : String := "src"
def fType : String := "type"
def fVersion : String := "version"
def fIhl : String := "ihl"
def fTos : String := "tos"
def fLen : String := "len"
def fId : String := "id"
def fFlags : String := "flags"
def fFrag : String := "frag"
def fTtl : String := "ttl"
def fProto : String := "proto"
def fChksum : String := "chksum"
def fSport : String := "sport"
def fDport : String := "dport"
def fSeq : String := "seq"
def fAck : String := "ack"
def fDataofs : String := "dataofs"
def fReserved : String := "reserved"
def fWindow : String := "window"
def fUrgptr : String := "urgptr"

/-! ## Layers and stacks (spec sections 3, 4.2, 4.3) -/

/-- Protocols of the subset the engine is specified for. -/
inductive Proto where
  | eth
  | ip
  | tcp
  | udp
  | raw
deriving DecidableEq

/-- Modelled from the spec: a `Layer` is one protocol header instance.  Its
`fields` association list holds the caller-set explicit values (a field absent
from the list is unset and resolved by its autoRule at serialize time); `load`
carries the opaque byte run of a raw payload layer. -/
structure Layer where
  proto : Proto
  fields : List (String × Nat)
  load : List Nat
deriving DecidableEq

/-- Modelled from the spec: a `PacketStack` is an ordered sequence of layers
from outermost to innermost; each layer's nested payload is the remainder of
the list. -/
abbrev Stack := List Layer

/-- Modelled from the spec: `compose(left, right)` makes the right stack the
nested payload of the left stack's innermost layer, i.e. it concatenates the
two encapsulation chains. -/
def compose (a b : Stack) : Stack := a ++ b

/-- Protocol of the outermost layer (used as the parser's root schema hint). -/
def headProto : Stack → Proto
  | [] => .raw
  | l :: _ => l.proto

/-- Protocol of the immediately nested layer, if any. -/
def nestedProto : Stack → Option Proto
  | [] => none
  | l :: _ => some l.proto

/-! ## Concrete schemas (widths per the real wire formats) -/

def ethSchema : List FieldDescriptor :=
  [⟨fDst, 48⟩, ⟨fSrc, 48⟩, ⟨fType, 16⟩]

def ipSchema : List FieldDescriptor :=
  [⟨fVersion, 4⟩, ⟨fIhl, 4⟩, ⟨fTos, 8⟩, ⟨fLen, 16⟩, ⟨fId, 16⟩,
   ⟨fFlags, 3⟩, ⟨fFrag, 13⟩, ⟨fTtl, 8⟩, ⟨fProto, 8⟩, ⟨fChksum, 16⟩,
   ⟨fSrc, 32⟩, ⟨fDst, 32⟩]

def tcpSchema : List FieldDescriptor :=
  [⟨fSport, 16⟩, ⟨fDport, 16⟩, ⟨fSeq, 32⟩, ⟨fAck, 32⟩, ⟨fDataofs, 4⟩,
   ⟨fReserved, 4⟩, ⟨fFlags, 8⟩, ⟨fWindow, 16⟩, ⟨fChksum, 16⟩, ⟨fUrgptr, 16⟩]

def udpSchema : List FieldDescriptor :=
  [⟨fSport, 16⟩, ⟨fDport, 16⟩, ⟨fLen, 16⟩, ⟨fChksum, 16⟩]

def schemaOf : Proto → List FieldDescriptor
  | .eth => ethSchema
  | .ip => ipSchema
  | .tcp => tcpSchema
  | .udp => udpSchema
  | .raw => []

def schemaNames (p : Proto) : List String :=
  (schemaOf p).map (·.name)

def widthOf (p : Proto) (n : String) : Nat :=
  (((schemaOf p).find? (fun fd => fd.name == n)).map (·.bitWidth)).getD 0

/-! ## Byte-level helpers -/

/-- Big-endian byte representation of `v`, exactly `k` bytes. -/
def toBytesBE : Nat → Nat → List Nat
  | _, 0 => []
  | v, k + 1 => toBytesBE (v / 256) k ++ [v % 256]

/-- Value of a big-endian byte sequence (each entry reduced mod 256). -/
def fromBytesBE (l : List Nat) : Nat :=
  l.foldl (fun a b => 256 * a + b % 256) 0

/-! ## Checksum calculator (spec section 4.4) -/

/-- Group a byte region into 16-bit big-endian words, zero-padding an odd
trailing byte. -/
def words16 : List Nat → List Nat
  | [] => []
  | [a] => [(a % 256) * 256]
  | a :: b :: rest => ((a % 256) * 256 + b % 256) :: words16 rest

/-- One step of the one's-complement running sum: add, then fold any overflow
of the 16-bit sum back into the low bits. -/
def onesAdd (a b : Nat) : Nat :=
  (a + b) % 65536 + (a + b) / 65536

/-- Modelled from the spec: the single checksum primitive — interpret the
region as 16-bit big-endian words (odd byte zero-padded), sum with end-around
carry, fold the carry once more at the end, and return the one's complement of
the final 16-bit sum. -/
def checksum (bs : List Nat) : Nat :=
  let s := (words16 bs).foldl onesAdd 0
  65535 - (s % 65536 + s / 65536)

/-- Modelled from the spec: the synthesized TCP/UDP pseudo-header — source
address, destination address, a zero byte, the protocol number, and the
segment length, all big-endian. -/
def pseudoHeader (src dst protoNum segLen : Nat) : List Nat :=
  toBytesBE src 4 ++ toBytesBE dst 4 ++ [0, protoNum % 256] ++ toBytesBE segLen 2

/-! ## Header encoders (resolved values to wire bytes) -/

/-- Ethernet header bytes: destination MAC, source MAC, EtherType. -/
def ethHeaderBytes (d s ty : Nat) : List Nat :=
  toBytesBE d 6 ++ toBytesBE s 6 ++ toBytesBE ty 2

/-- IPv4 header bytes (20 bytes, version and IHL packed in the first byte,
flags and fragment offset packed across two bytes). -/
def ipHeaderBytes (ver ihl tos len idv fl fr ttl protoNum chk srcA dstA : Nat) :
    List Nat :=
  toBytesBE ((ver % 16) * 16 + ihl % 16) 1 ++ toBytesBE tos 1 ++
  toBytesBE len 2 ++ toBytesBE idv 2 ++
  toBytesBE ((fl % 8) * 8192 + fr % 8192) 2 ++ toBytesBE ttl 1 ++
  toBytesBE protoNum 1 ++ toBytesBE chk 2 ++ toBytesBE srcA 4 ++ toBytesBE dstA 4

/-- TCP header bytes (20 bytes, data offset and reserved bits packed in byte
12, flags in byte 13). -/
def tcpHeaderBytes (sport dport seqv ackv dofs resv flg win chk urg : Nat) :
    List Nat :=
  toBytesBE sport 2 ++ toBytesBE dport 2 ++ toBytesBE seqv 4 ++ toBytesBE ackv 4 ++
  toBytesBE ((dofs % 16) * 16 + resv % 16) 1 ++ toBytesBE flg 1 ++
  toBytesBE win 2 ++ toBytesBE chk 2 ++ toBytesBE urg 2

/-- UDP header bytes (8 bytes). -/
def udpHeaderBytes (sport dport len chk : Nat) : List Nat :=
  toBytesBE sport 2 ++ toBytesBE dport 2 ++ toBytesBE len 2 ++ toBytesBE chk 2

/-! ## Auto-rules for next-protocol fields (spec section 4.3) -/

/-- Modelled from the spec: the autoRule for IP's protocol number inspects the
type of the immediately nested layer (TCP maps to 6, UDP to 17); an
unrecognized or absent nested layer leaves the neutral default 0. -/
def autoIpProto : Option Proto → Nat
  | some .tcp => 6
  | some .udp => 17
  | _ => 0

/-- Modelled from the spec: the autoRule for Ethernet's type field maps a
nested IPv4 layer to EtherType 0x0800; an unrecognized or absent nested layer
leaves the neutral default 0. -/
def autoEthType : Option Proto → Nat
  | some .ip => 0x0800
  | _ => 0

/-! ## Serializer (spec section 4.5) -/

/-- Modelled from the spec: `FieldResolutionError` — an autoRule's declared
dependency cannot be satisfied at serialize time. -/
inductive SerError where
  | fieldResolution (field : String)
deriving DecidableEq

/-- Read-only ancestor context threaded down through serialization: the
resolved source and destination addresses of the nearest enclosing IP layer,
when one exists. -/
structure Ctx where
  srcAddr : Option Nat
  dstAddr : Option Nat
deriving DecidableEq

/-- The empty ancestor context used at the top of a stack. -/
def emptyCtx : Ctx := ⟨none, none⟩

/-- Explicit value of a field, or the given default when the field is unset. -/
def lookupD (f : List (String × Nat)) (n : String) (d : Nat) : Nat :=
  (f.lookup n).getD d

/-- Resolved IP source address: the explicit value, or the loopback default. -/
def ipSrcOf (f : List (String × Nat)) : Nat := lookupD f fSrc 0x7F000001

/-- Resolved IP destination address: the explicit value, or the loopback
default. -/
def ipDstOf (f : List (String × Nat)) : Nat := lookupD f fDst 0x7F000001

/-- Modelled from the spec: the serializer, strictly innermost-first — the
nested payload is serialized first, then this layer's fields are resolved
(explicit value, else autoRule: lengths from the nested byte count, protocol
numbers from the nested layer type, checksums from the serialized region with
the checksum bytes zeroed, TCP/UDP checksums over the pseudo-header built from
the ancestor context), the header is encoded, and header and payload are
concatenated.  A TCP/UDP checksum autoRule with no enclosing IP layer fails
with `FieldResolutionError`. -/
def serializeAux : Ctx → Stack → Except SerError (List Nat)
  | _, [] => .ok []
  | ctx, l :: rest =>
    match l.proto with
    | .eth =>
      match serializeAux ctx rest with
      | .error e => .error e
      | .ok inner =>
          .ok (ethHeaderBytes (lookupD l.fields fDst 0) (lookupD l.fields fSrc 0)
            (lookupD l.fields fType (autoEthType (nestedProto rest))) ++ inner)
    | .ip =>
      let srcA := ipSrcOf l.fields
      let dstA := ipDstOf l.fields
      match serializeAux ⟨some srcA, some dstA⟩ rest with
      | .error e => .error e
      | .ok inner =>
          let ver := lookupD l.fields fVersion 4
          let ihl := lookupD l.fields fIhl 5
          let tos := lookupD l.fields fTos 0
          let len := lookupD l.fields fLen (20 + inner.length)
          let idv := lookupD l.fields fId 1
          let fl := lookupD l.fields fFlags 0
          let fr := lookupD l.fields fFrag 0
          let ttl := lookupD l.fields fTtl 64
          let protoNum := lookupD l.fields fProto (autoIpProto (nestedProto rest))
          let chk := match l.fields.lookup fChksum with
            | some v => v
            | none =>
                checksum (ipHeaderBytes ver ihl tos len idv fl fr ttl protoNum 0
                  srcA dstA)
          .ok (ipHeaderBytes ver ihl tos len idv fl fr ttl protoNum chk
            srcA dstA ++ inner)
    | .tcp =>
      match serializeAux ctx rest with
      | .error e => .error e
      | .ok inner =>
          let sport := lookupD l.fields fSport 20
          let dport := lookupD l.fields fDport 80
          let seqv := lookupD l.fields fSeq 0
          let ackv := lookupD l.fields fAck 0
          let dofs := lookupD l.fields fDataofs 5
          let resv := lookupD l.fields fReserved 0
          let flg := lookupD l.fields fFlags 2
          let win := lookupD l.fields fWindow 8192
          let urg := lookupD l.fields fUrgptr 0
          match l.fields.lookup fChksum with
          | some v =>
              .ok (tcpHeaderBytes sport dport seqv ackv dofs resv flg win v urg
                ++ inner)
          | none =>
            match ctx.srcAddr, ctx.dstAddr with
            | some s, some d =>
                let chk := checksum (pseudoHeader s d 6 (20 + inner.length) ++
                  tcpHeaderBytes sport dport seqv ackv dofs resv flg win 0 urg ++
                  inner)
                .ok (tcpHeaderBytes sport dport seqv ackv dofs resv flg win chk urg
                  ++ inner)
            | _, _ => .error (.fieldResolution fChksum)
    | .udp =>
      match serializeAux ctx rest with
      | .error e => .error e
      | .ok inner =>
          let sport := lookupD l.fields fSport 53
          let dport := lookupD l.fields fDport 53
          let len := lookupD l.fields fLen (8 + inner.length)
          match l.fields.lookup fChksum with
          | some v => .ok (udpHeaderBytes sport dport len v ++ inner)
          | none =>
            match ctx.srcAddr, ctx.dstAddr with
            | some s, some d =>
                let chk := checksum (pseudoHeader s d 17 len ++
                  udpHeaderBytes sport dport len 0 ++ inner)
                .ok (udpHeaderBytes sport dport len chk ++ inner)
            | _, _ => .error (.fieldResolution fChksum)
    | .raw =>
      match serializeAux ctx rest with
      | .error e => .error e
      | .ok inner => .ok (l.load ++ inner)

/-- Modelled from the spec: `serialize(stack)` — serialize the whole stack
with the empty ancestor context. -/
def serialize (s : Stack) : Except SerError (List Nat) :=
  serializeAux emptyCtx s

/-! ## Parser (spec section 4.6) -/

/-- Modelled from the spec: `TruncatedPacketError` — the parser ran out of
bytes mid-header; the marker records which layer was incomplete.  There is
deliberately no `UnrecognizedProtocolError`: unknown next-protocol values
degrade to an opaque raw payload layer. -/
inductive ParseError where
  | truncated (p : Proto)
deriving DecidableEq

/-- Declared fixed header width of each schema. -/
def fixedWidth : Proto → Nat
  | .eth => 14
  | .ip => 20
  | .tcp => 20
  | .udp => 8
  | .raw => 0

/-- Modelled from the spec: the parser's repeated decode-and-dispatch loop.
Each step decodes the current schema's fixed-width header (two-pass for IP and
TCP, whose header length is itself a field), dispatches the next schema from
the decoded next-protocol value, and treats a value with no dispatch entry as
an opaque terminal raw payload.  Truncated input yields the stack built so far
plus a `TruncatedPacketError` marker naming the incomplete layer.  The first
argument is recursion fuel; `parse` supplies more fuel than the byte count, so
it never runs out. -/
def parseAux : Nat → Proto → List Nat → Stack × Option ParseError
  | 0, _, _ => ([], none)
  | fuel + 1, p, bytes =>
    match p with
    | .raw =>
      if bytes.isEmpty then ([], none) else ([⟨.raw, [], bytes⟩], none)
    | .eth =>
      if bytes.length < 14 then ([], some (.truncated .eth)) else
      let d := fromBytesBE (bytes.take 6)
      let r1 := bytes.drop 6
      let s := fromBytesBE (r1.take 6)
      let r2 := r1.drop 6
      let ty := fromBytesBE (r2.take 2)
      let rest := r2.drop 2
      let layer : Layer := ⟨.eth, [(fDst, d), (fSrc, s), (fType, ty)], []⟩
      if rest.isEmpty then ([layer], none)
      else
        let nxt := if ty = 0x0800 then Proto.ip else Proto.raw
        let pr := parseAux fuel nxt rest
        (layer :: pr.1, pr.2)
    | .ip =>
      if bytes.length < 20 then ([], some (.truncated .ip)) else
      let b0 := fromBytesBE (bytes.take 1)
      let r1 := bytes.drop 1
      let tos := fromBytesBE (r1.take 1)
      let r2 := r1.drop 1
      let len := fromBytesBE (r2.take 2)
      let r3 := r2.drop 2
      let idv := fromBytesBE (r3.take 2)
      let r4 := r3.drop 2
      let ff := fromBytesBE (r4.take 2)
      let r5 := r4.drop 2
      let ttl := fromBytesBE (r5.take 1)
      let r6 := r5.drop 1
      let protoNum := fromBytesBE (r6.take 1)
      let r7 := r6.drop 1
      let chk := fromBytesBE (r7.take 2)
      let r8 := r7.drop 2
      let srcA := fromBytesBE (r8.take 4)
      let r9 := r8.drop 4
      let dstA := fromBytesBE (r9.take 4)
      let after := r9.drop 4
      let ihl := b0 % 16
      if bytes.length < 4 * ihl then ([], some (.truncated .ip)) else
      let options := after.take (4 * ihl - 20)
      let rest := after.drop (4 * ihl - 20)
      let layer : Layer := ⟨.ip,
        [(fVersion, b0 / 16), (fIhl, ihl), (fTos, tos), (fLen, len), (fId, idv),
         (fFlags, ff / 8192), (fFrag, ff % 8192), (fTtl, ttl),
         (fProto, protoNum), (fChksum, chk), (fSrc, srcA), (fDst, dstA)],
        options⟩
      if rest.isEmpty then ([layer], none)
      else
        let nxt := if protoNum = 6 then Proto.tcp
          else if protoNum = 17 then Proto.udp else Proto.raw
        let pr := parseAux fuel nxt rest
        (layer :: pr.1, pr.2)
    | .tcp =>
      if bytes.length < 20 then ([], some (.truncated .tcp)) else
      let sport := fromBytesBE (bytes.take 2)
      let r1 := bytes.drop 2
      let dport := fromBytesBE (r1.take 2)
      let r2 := r1.drop 2
      let seqv := fromBytesBE (r2.take 4)
      let r3 := r2.drop 4
      let ackv := fromBytesBE (r3.take 4)
      let r4 := r3.drop 4
      let b12 := fromBytesBE (r4.take 1)
      let r5 := r4.drop 1
      let flg := fromBytesBE (r5.take 1)
      let r6 := r5.drop 1
      let win := fromBytesBE (r6.take 2)
      let r7 := r6.drop 2
      let chk := fromBytesBE (r7.take 2)
      let r8 := r7.drop 2
      let urg := fromBytesBE (r8.take 2)
      let after := r8.drop 2
      let dofs := b12 / 16
      if bytes.length < 4 * dofs then ([], some (.truncated .tcp)) else
      let options := after.take (4 * dofs - 20)
      let rest := after.drop (4 * dofs - 20)
      let layer : Layer := ⟨.tcp,
        [(fSport, sport), (fDport, dport), (fSeq, seqv), (fAck, ackv),
         (fDataofs, dofs), (fReserved, b12 % 16), (fFlags, flg),
         (fWindow, win), (fChksum, chk), (fUrgptr, urg)], options⟩
      if rest.isEmpty then ([layer], none)
      else
        let pr := parseAux fuel Proto.raw rest
        (layer :: pr.1, pr.2)
    | .udp =>
      if bytes.length < 8 then ([], some (.truncated .udp)) else
      let sport := fromBytesBE (bytes.take 2)
      let r1 := bytes.drop 2
      let dport := fromBytesBE (r1.take 2)
      let r2 := r1.drop 2
      let len := fromBytesBE (r2.take 2)
      let r3 := r2.drop 2
      let chk := fromBytesBE (r3.take 2)
      let rest := r3.drop 2
      let layer : Layer := ⟨.udp,
        [(fSport, sport), (fDport, dport), (fLen, len), (fChksum, chk)], []⟩
      if rest.isEmpty then ([layer], none)
      else
        let pr := parseAux fuel Proto.raw rest
        (layer :: pr.1, pr.2)

/-- Modelled from the spec: `parse(bytes, rootSchemaHint)` — run the
decode-and-dispatch loop with sufficient fuel. -/
def parse (bytes : List Nat) (hint : Proto) : Stack × Option ParseError :=
  parseAux (bytes.length + 1) hint bytes

/-! ## Well-formedness of a fully explicit stack -/

/-- Every field of the layer's schema was set explicitly by the caller. -/
def fullyExplicitB (l : Layer) : Bool :=
  (schemaNames l.proto).all fun n => (l.fields.lookup n).isSome

/-- Every explicitly set schema field fits its declared bit width. -/
def inRangeB (l : Layer) : Bool :=
  (schemaNames l.proto).all fun n =>
    match l.fields.lookup n with
    | some v => decide (v < 2 ^ widthOf l.proto n)
    | none => true

/-- Structural sanity of one layer: header-length fields match the fixed
header actually emitted, raw layers are nonempty byte runs, and only raw
layers carry a byte load. -/
def wfOneB (l : Layer) : Bool :=
  fullyExplicitB l && inRangeB l &&
  (match l.proto with
   | .ip => l.fields.lookup fIhl == some 5
   | .tcp => l.fields.lookup fDataofs == some 5
   | .raw => !l.load.isEmpty && l.load.all (fun b => decide (b < 256))
   | _ => true) &&
  (l.proto == .raw || l.load.isEmpty)

/-- The explicit next-protocol field of a layer is consistent with the
dispatch table entry for the immediately nested layer. -/
def linkOkB (l nxt : Layer) : Bool :=
  match l.proto with
  | .eth =>
    match nxt.proto with
    | .ip => l.fields.lookup fType == some 0x0800
    | .raw => !(l.fields.lookup fType == some 0x0800)
    | _ => false
  | .ip =>
    match nxt.proto with
    | .tcp => l.fields.lookup fProto == some 6
    | .udp => l.fields.lookup fProto == some 17
    | .raw => !(l.fields.lookup fProto == some 6) &&
        !(l.fields.lookup fProto == some 17)
    | _ => false
  | .tcp => nxt.proto == .raw
  | .udp => nxt.proto == .raw
  | .raw => false

/-- Well-formed fully explicit stack: every layer fully explicit, in range and
structurally sane, and every adjacent pair consistent with parser dispatch. -/
def wfStackB : Stack → Bool
  | [] => true
  | [l] => wfOneB l
  | l :: nxt :: rest => wfOneB l && linkOkB l nxt && wfStackB (nxt :: rest)

/-- Two layers agree on protocol, raw load, and the resolved value of every
schema field. -/
def layerMatch (a b : Layer) : Prop :=
  a.proto = b.proto ∧ a.load = b.load ∧
    ∀ n ∈ schemaNames b.proto, a.fields.lookup n = b.fields.lookup n

/-! ## Byte surgery used by the checksum statements -/

/-- Replace the two bytes at offset `i` by zeros (the checksum field's own
bytes are treated as zero while computing). -/
def zero2At (l : List Nat) (i : Nat) : List Nat :=
  l.take i ++ [0, 0] ++ l.drop (i + 2)

/-- Decidable equality for `Except` results, used to evaluate concrete
serializations. -/
instance {ε α : Type} [DecidableEq ε] [DecidableEq α] : DecidableEq (Except ε α) :=
  fun x y =>
    match x, y with
    | .error e, .error f =>
      match decEq e f with
      | isTrue h => isTrue (by rw [h])
      | isFalse h => isFalse (fun c => h (by cases c; rfl))
    | .ok a, .ok b =>
      match decEq a b with
      | isTrue h => isTrue (by rw [h])
      | isFalse h => isFalse (fun c => h (by cases c; rfl))
    | .error _, .ok _ => isFalse (fun c => Except.noConfusion c)
    | .ok _, .error _ => isFalse (fun c => Except.noConfusion c)

/-! ## Concrete stacks used by scenario theorems -/

/-- The spec's SYN-segment scenario: Ethernet, IP and TCP with the scenario's
explicit fields and every derived field left to its autoRule. -/
def synStack : Stack :=
  [⟨.eth, [(fSrc, 0xAABBCC112233), (fDst, 0xFFEEDD445566)], []⟩,
   ⟨.ip, [(fSrc, 0xC0A80164), (fDst, 0x5DB8D822), (fTtl, 64)], []⟩,
   ⟨.tcp, [(fSport, 54321), (fDport, 80), (fSeq, 1000), (fFlags, 2),
     (fWindow, 65535)], []⟩]

/-- Serialized bytes of the SYN-segment scenario (a valid 54-byte
Ethernet+IP+TCP buffer). -/
def buffer54 : List Nat := (serialize synStack).toOption.getD []

/-- A fully explicit two-layer stack whose Ethernet type field (0x0800) points
at the IP dispatch entry while the payload is a 3-byte raw run. -/
def c2exStack : Stack :=
  [⟨.eth, [(fDst, 1), (fSrc, 2), (fType, 0x0800)], []⟩, ⟨.raw, [], [1, 2, 3]⟩]

/-- Serialized bytes of `c2exStack`. -/
def c2exBytes : List Nat := (serialize c2exStack).toOption.getD []

/-- A well-formed fully explicit stack: Ethernet with an unrecognized type
over a raw payload. -/
def c2wStack : Stack :=
  [⟨.eth, [(fDst, 1), (fSrc, 2), (fType, 0x1234)], []⟩, ⟨.raw, [], [9, 9]⟩]

/-- An IP header with an explicitly pinned (wrong) checksum value. -/
def c3exStack : Stack :=
  [⟨.ip, [(fSrc, 1), (fDst, 2), (fChksum, 0xFFFF)], []⟩]

/-- Serialized bytes of `c3exStack`. -/
def c3exBytes : List Nat := (serialize c3exStack).toOption.getD []

/-- An IP/TCP stack with src and dst addresses set and all derived fields left
unset (the 00-foundations example without the Ethernet layer). -/
def c10Stack : Stack :=
  [⟨.ip, [(fSrc, 0x7F000001), (fDst, 0x7F000001)], []⟩,
   ⟨.tcp, [(fSport, 54321), (fDport, 80), (fFlags, 2), (fSeq, 1000),
     (fWindow, 65535)], []⟩]

/-- Serialized bytes of `c10Stack`. -/
def c10Bytes : List Nat := (serialize c10Stack).toOption.getD []

/-- An IP-only stack with the checksum left unset (used as a checksum
witness). -/
def c3wStack : Stack := [⟨.ip, [(fSrc, 0x0A000001), (fDst, 0x0A000002)], []⟩]

/-- Serialized bytes of `c3wStack`. -/
def c3wBytes : List Nat := (serialize c3wStack).toOption.getD []

/-- An IP header with the checksum explicitly pinned to 0xFFFF. -/
def c5wStack : Stack :=
  [⟨.ip, [(fSrc, 1), (fDst, 2), (fChksum, 0xFFFF)], []⟩]

/-- Serialized bytes of `c5wStack`. -/
def c5wBytes : List Nat := (serialize c5wStack).toOption.getD []

/-! ## Arithmetic and bit-level lemmas -/

theorem mulBase_mod (B q r m : Nat) (hm : 0 < m) (hr : r < B) :
    (B * q + r) % (B * m) = B * (q % m) + r := by
  have h1 : q % m < m := Nat.mod_lt _ hm
  have h2 : B * (q % m) + r < B * m := by
    calc B * (q % m) + r < B * (q % m) + B := by omega
    _ = B * (q % m + 1) := by ring
    _ ≤ B * m := Nat.mul_le_mul_left _ h1
  calc (B * q + r) % (B * m)
      = (B * (m * (q / m) + q % m) + r) % (B * m) := by rw [Nat.div_add_mod]
    _ = (B * (q % m) + r + (B * m) * (q / m)) % (B * m) := by
        rw [show B * (m * (q / m) + q % m) + r
          = B * (q % m) + r + (B * m) * (q / m) from by ring]
    _ = (B * (q % m) + r) % (B * m) := Nat.add_mul_mod_self_left _ _ _
    _ = B * (q % m) + r := Nat.mod_eq_of_lt h2

theorem natToBits_length (w n : Nat) : (natToBits w n).length = w := by
  induction w generalizing n with
  | zero => rfl
  | succ w ih => simp [natToBits, ih]

theorem bitsToNat_append_bit (l : List Bool) (b : Bool) :
    bitsToNat (l ++ [b]) = 2 * bitsToNat l + (if b then 1 else 0) := by
  simp [bitsToNat, List.foldl_append]

theorem bitsToNat_natToBits (w n : Nat) : bitsToNat (natToBits w n) = n % 2 ^ w := by
  induction w generalizing n with
  | zero => simp [natToBits, bitsToNat, Nat.mod_one]
  | succ w ih =>
    rw [natToBits, bitsToNat_append_bit, ih]
    have hb : (if (n % 2 == 1) = true then 1 else 0) = n % 2 := by
      rcases Nat.mod_two_eq_zero_or_one n with h | h <;> simp [h]
    rw [hb]
    have := mulBase_mod 2 (n / 2) (n % 2) (2 ^ w) (Nat.pos_pow_of_pos w (by omega))
      (Nat.mod_lt _ (by omega))
    calc 2 * (n / 2 % 2 ^ w) + n % 2
        = (2 * (n / 2) + n % 2) % (2 * 2 ^ w) := this.symm
      _ = n % 2 ^ (w + 1) := by
          rw [show 2 * (n / 2) + n % 2 = n from by omega, pow_succ, Nat.mul_comm]

theorem natToBits8_bitsToNat (b1 b2 b3 b4 b5 b6 b7 b8 : Bool) :
    natToBits 8 (bitsToNat [b1, b2, b3, b4, b5, b6, b7, b8])
      = [b1, b2, b3, b4, b5, b6, b7, b8] := by
  revert b1 b2 b3 b4 b5 b6 b7 b8; decide

theorem bytesToBits_bitsToBytes :
    ∀ l : List Bool, l.length % 8 = 0 → bytesToBits (bitsToBytes l) = l
  | [], _ => rfl
  | b1 :: b2 :: b3 :: b4 :: b5 :: b6 :: b7 :: b8 :: rest, h => by
    have hr : rest.length % 8 = 0 := by
      simp only [List.length_cons] at h; omega
    have ih := bytesToBits_bitsToBytes rest hr
    simp only [bitsToBytes, bytesToBits, List.map_cons, List.flatten_cons] at ih ⊢
    rw [natToBits8_bitsToNat, ih]
    rfl
  | [b1], h => by simp at h
  | [b1, b2], h => by simp at h
  | [b1, b2, b3], h => by simp at h
  | [b1, b2, b3, b4], h => by simp at h
  | [b1, b2, b3, b4, b5], h => by simp at h
  | [b1, b2, b3, b4, b5, b6], h => by simp at h
  | [b1, b2, b3, b4, b5, b6, b7], h => by simp at h

theorem bitsToBytes_length :
    ∀ l : List Bool, l.length % 8 = 0 → 8 * (bitsToBytes l).length = l.length
  | [], _ => rfl
  | b1 :: b2 :: b3 :: b4 :: b5 :: b6 :: b7 :: b8 :: rest, h => by
    have hr : rest.length % 8 = 0 := by
      simp only [List.length_cons] at h; omega
    have ih := bitsToBytes_length rest hr
    simp only [bitsToBytes, List.length_cons]
    omega
  | [b1], h => by simp at h
  | [b1, b2], h => by simp at h
  | [b1, b2, b3], h => by simp at h
  | [b1, b2, b3, b4], h => by simp at h
  | [b1, b2, b3, b4, b5], h => by simp at h
  | [b1, b2, b3, b4, b5, b6], h => by simp at h
  | [b1, b2, b3, b4, b5, b6, b7], h => by simp at h

theorem splitWidths_flatten :
    ∀ P : List (FieldDescriptor × Nat),
      splitWidths (P.map fun p => p.1.bitWidth)
          ((P.map fun p => natToBits p.1.bitWidth p.2).flatten)
        = P.map fun p => natToBits p.1.bitWidth p.2
  | [] => rfl
  | p :: P => by
    simp only [List.map_cons, List.flatten_cons, splitWidths]
    rw [List.take_left' (natToBits_length _ _),
      List.drop_left' (natToBits_length _ _), splitWidths_flatten P]

theorem zip_map_bitWidth (schema : List FieldDescriptor) (values : List Nat)
    (hlen : values.length = schema.length) :
    (schema.zip values).map (fun p => p.1.bitWidth) = schema.map (·.bitWidth) := by
  conv_rhs => rw [← List.map_fst_zip schema values (le_of_eq hlen.symm)]
  rw [List.map_map]
  rfl

/-- C1: the round-trip direction.  For a schema whose total width is a whole
number of bytes and a fully explicit in-range values list, `encode` succeeds
and `decode` inverts it; and any value exceeding its declared bit width makes
`encode` fail with an error instead of silently truncating. -/
theorem c1_field_codec_roundtrip (schema : List FieldDescriptor) (values : List Nat)
    (hlen : values.length = schema.length)
    (hmod : totalWidth schema % 8 = 0) :
    ((∀ p ∈ schema.zip values, p.2 < 2 ^ p.1.bitWidth) →
      ∃ out, encode schema values = .ok out ∧ decode schema out = some values) ∧
    ((∃ p ∈ schema.zip values, 2 ^ p.1.bitWidth ≤ p.2) →
      ∃ e, encode schema values = .error e) := by
  constructor
  · intro hfits
    have hfind : (schema.zip values).find?
        (fun p => decide (2 ^ p.1.bitWidth ≤ p.2)) = none := by
      rw [List.find?_eq_none]
      intro x hx
      simp only [decide_eq_true_eq]
      exact Nat.not_le.mpr (hfits x hx)
    have hw := zip_map_bitWidth schema values hlen
    have hL : (((schema.zip values).map
        (fun p => natToBits p.1.bitWidth p.2)).flatten).length = totalWidth schema := by
      rw [List.length_flatten, List.map_map]
      rw [show (List.length ∘ fun p : FieldDescriptor × Nat =>
        natToBits p.1.bitWidth p.2) = fun p : FieldDescriptor × Nat => p.1.bitWidth
        from funext fun p => natToBits_length _ _]
      rw [hw]
      rfl
    have hLmod : (((schema.zip values).map
        (fun p => natToBits p.1.bitWidth p.2)).flatten).length % 8 = 0 := by
      rw [hL]; exact hmod
    refine ⟨bitsToBytes (((schema.zip values).map
      (fun p => natToBits p.1.bitWidth p.2)).flatten), by simp [encode, hfind], ?_⟩
    unfold decode
    rw [if_pos]
    · rw [bytesToBits_bitsToBytes _ hLmod, ← hw, splitWidths_flatten]
      congr 1
      rw [List.map_map]
      rw [List.map_congr_left (g := Prod.snd) ?_]
      · exact List.map_snd_zip _ _ (le_of_eq hlen)
      · intro p hp
        simp only [Function.comp_apply]
        rw [bitsToNat_natToBits, Nat.mod_eq_of_lt (hfits p hp)]
    · rw [bitsToBytes_length _ hLmod, hL]
  · rintro ⟨p, hp, hple⟩
    cases hfind2 : (schema.zip values).find?
        (fun q => decide (2 ^ q.1.bitWidth ≤ q.2)) with
    | some q => exact ⟨.valueRange q.1.name, by simp [encode, hfind2]⟩
    | none =>
      exfalso
      have := List.find?_eq_none.mp hfind2 p hp
      simp only [decide_eq_true_eq] at this
      exact this hple

/-- C1 witness: the IP schema with a concrete in-range values list round-trips
through `encode` and `decode`. -/
theorem c1_field_codec_roundtrip_witness :
    ∃ out,
      encode ipSchema [4, 5, 0, 40, 1, 0, 0, 64, 6, 0, 0x7F000001, 0x7F000001]
        = .ok out ∧
      decode ipSchema out
        = some [4, 5, 0, 40, 1, 0, 0, 64, 6, 0, 0x7F000001, 0x7F000001] :=
  (c1_field_codec_roundtrip ipSchema
    [4, 5, 0, 40, 1, 0, 0, 64, 6, 0, 0x7F000001, 0x7F000001]
    (by decide) (by decide)).1 (by decide)

/-! ## Byte-level round-trip lemmas -/

theorem toBytesBE_length (v k : Nat) : (toBytesBE v k).length = k := by
  induction k generalizing v with
  | zero => rfl
  | succ k ih => simp [toBytesBE, ih]

theorem fromBytesBE_append_byte (l : List Nat) (b : Nat) :
    fromBytesBE (l ++ [b]) = 256 * fromBytesBE l + b % 256 := by
  simp [fromBytesBE, List.foldl_append]

theorem fromBytesBE_toBytesBE (v k : Nat) :
    fromBytesBE (toBytesBE v k) = v % 2 ^ (8 * k) := by
  induction k generalizing v with
  | zero => simp [toBytesBE, fromBytesBE, Nat.mod_one]
  | succ k ih =>
    calc fromBytesBE (toBytesBE v (k + 1))
        = 256 * (v / 256 % 2 ^ (8 * k)) + v % 256 % 256 := by
          rw [toBytesBE, fromBytesBE_append_byte, ih]
      _ = 256 * (v / 256 % 2 ^ (8 * k)) + v % 256 := by omega
      _ = (256 * (v / 256) + v % 256) % (256 * 2 ^ (8 * k)) :=
          (mulBase_mod 256 (v / 256) (v % 256) (2 ^ (8 * k))
            (Nat.pos_pow_of_pos _ (by omega)) (Nat.mod_lt _ (by omega))).symm
      _ = v % 2 ^ (8 * (k + 1)) := by
          rw [show 256 * (v / 256) + v % 256 = v from by omega,
            show (256 : Nat) * 2 ^ (8 * k) = 2 ^ (8 * (k + 1)) from by
              rw [show 8 * (k + 1) = 8 * k + 8 from by ring, pow_add]
              norm_num
              ring]

theorem checksum_lt (bs : List Nat) : checksum bs < 65536 := by
  simp only [checksum]
  omega

theorem toBytesBE2_mod (v : Nat) :
    toBytesBE (v % 2 ^ (8 * 2)) 2 = toBytesBE v 2 := by
  show [v % 2 ^ (8 * 2) / 256 % 256, v % 2 ^ (8 * 2) % 256]
    = [v / 256 % 256, v % 256]
  have h1 : v % 2 ^ (8 * 2) % 256 = v % 256 := by
    rw [show (2 : Nat) ^ (8 * 2) = 65536 from by norm_num]; omega
  have h2 : v % 2 ^ (8 * 2) / 256 % 256 = v / 256 % 256 := by
    rw [show (2 : Nat) ^ (8 * 2) = 65536 from by norm_num]; omega
  rw [h1, h2]

theorem pseudoHeader_mod (s d c v : Nat) :
    pseudoHeader s d c (v % 2 ^ (8 * 2)) = pseudoHeader s d c v := by
  simp only [pseudoHeader, toBytesBE2_mod]

/-! ## Header byte-layout lemmas

Each header builder produces a list with a concrete spine, so positional
access reduces definitionally. -/

section EthLayout

variable (d s ty : Nat) (m : List Nat)

theorem ethHB_take6 : (ethHeaderBytes d s ty ++ m).take 6 = toBytesBE d 6 := rfl

theorem ethHB_r1 :
    ((ethHeaderBytes d s ty ++ m).drop 6).take 6 = toBytesBE s 6 := rfl

theorem ethHB_r2 :
    (((ethHeaderBytes d s ty ++ m).drop 6).drop 6).take 2 = toBytesBE ty 2 := rfl

theorem ethHB_rest :
    (((ethHeaderBytes d s ty ++ m).drop 6).drop 6).drop 2 = m := rfl

theorem ethHB_length : (ethHeaderBytes d s ty).length = 14 := rfl

theorem ethHB_append_length :
    (ethHeaderBytes d s ty ++ m).length = 14 + m.length := by
  rw [List.length_append, ethHB_length]

theorem ethHB_drop12_take2 :
    ((ethHeaderBytes d s ty ++ m).drop 12).take 2 = toBytesBE ty 2 := rfl

end EthLayout

section IpLayout

variable (ver ihl tos len idv fl fr ttl pr chk sA dA : Nat) (m : List Nat)

theorem ipHB_r0 :
    (ipHeaderBytes ver ihl tos len idv fl fr ttl pr chk sA dA ++ m).take 1
      = toBytesBE ((ver % 16) * 16 + ihl % 16) 1 := rfl

theorem ipHB_r1 :
    ((ipHeaderBytes ver ihl tos len idv fl fr ttl pr chk sA dA ++ m).drop 1).take 1
      = toBytesBE tos 1 := rfl

theorem ipHB_r2 :
    (((ipHeaderBytes ver ihl tos len idv fl fr ttl pr chk sA dA ++ m).drop 1).drop
      1).take 2 = toBytesBE len 2 := rfl

theorem ipHB_r3 :
    ((((ipHeaderBytes ver ihl tos len idv fl fr ttl pr chk sA dA ++ m).drop 1).drop
      1).drop 2).take 2 = toBytesBE idv 2 := rfl

theorem ipHB_r4 :
    (((((ipHeaderBytes ver ihl tos len idv fl fr ttl pr chk sA dA ++ m).drop 1).drop
      1).drop 2).drop 2).take 2 = toBytesBE ((fl % 8) * 8192 + fr % 8192) 2 := rfl

theorem ipHB_r5 :
    ((((((ipHeaderBytes ver ihl tos len idv fl fr ttl pr chk sA dA ++ m).drop 1).drop
      1).drop 2).drop 2).drop 2).take 1 = toBytesBE ttl 1 := rfl

theorem ipHB_r6 :
    (((((((ipHeaderBytes ver ihl tos len idv fl fr ttl pr chk sA dA ++ m).drop 1).drop
      1).drop 2).drop 2).drop 2).drop 1).take 1 = toBytesBE pr 1 := rfl

theorem ipHB_r7 :
    ((((((((ipHeaderBytes ver ihl tos len idv fl fr ttl pr chk sA dA ++ m).drop 1).drop
      1).drop 2).drop 2).drop 2).drop 1).drop 1).take 2 = toBytesBE chk 2 := rfl

theorem ipHB_r8 :
    (((((((((ipHeaderBytes ver ihl tos len idv fl fr ttl pr chk sA dA ++ m).drop 1).drop
      1).drop 2).drop 2).drop 2).drop 1).drop 1).drop 2).take 4
      = toBytesBE sA 4 := rfl

theorem ipHB_r9 :
    ((((((((((ipHeaderBytes ver ihl tos len idv fl fr ttl pr chk sA dA ++ m).drop 1).drop
      1).drop 2).drop 2).drop 2).drop 1).drop 1).drop 2).drop 4).take 4
      = toBytesBE dA 4 := rfl

theorem ipHB_rest :
    ((((((((((ipHeaderBytes ver ihl tos len idv fl fr ttl pr chk sA dA ++ m).drop 1).drop
      1).drop 2).drop 2).drop 2).drop 1).drop 1).drop 2).drop 4).drop 4 = m := rfl

theorem ipHB_length :
    (ipHeaderBytes ver ihl tos len idv fl fr ttl pr chk sA dA).length = 20 := rfl

theorem ipHB_append_length :
    (ipHeaderBytes ver ihl tos len idv fl fr ttl pr chk sA dA ++ m).length
      = 20 + m.length := by
  rw [List.length_append, ipHB_length]

theorem ipHB_drop9_take1 :
    ((ipHeaderBytes ver ihl tos len idv fl fr ttl pr chk sA dA ++ m).drop 9).take 1
      = toBytesBE pr 1 := rfl

theorem ipHB_drop10_take2 :
    ((ipHeaderBytes ver ihl tos len idv fl fr ttl pr chk sA dA ++ m).drop 10).take 2
      = toBytesBE chk 2 := rfl

theorem ipHB_take20 :
    (ipHeaderBytes ver ihl tos len idv fl fr ttl pr chk sA dA ++ m).take 20
      = ipHeaderBytes ver ihl tos len idv fl fr ttl pr chk sA dA := rfl

theorem ipHB_drop20 :
    (ipHeaderBytes ver ihl tos len idv fl fr ttl pr chk sA dA ++ m).drop 20 = m := rfl

theorem ipHB_zero :
    zero2At (ipHeaderBytes ver ihl tos len idv fl fr ttl pr chk sA dA) 10
      = ipHeaderBytes ver ihl tos len idv fl fr ttl pr 0 sA dA := rfl

end IpLayout

section TcpLayout

variable (sp dp sq ak dofs rv fg wn chk ug : Nat) (m : List Nat)

theorem tcpHB_r0 :
    (tcpHeaderBytes sp dp sq ak dofs rv fg wn chk ug ++ m).take 2
      = toBytesBE sp 2 := rfl

theorem tcpHB_r1 :
    ((tcpHeaderBytes sp dp sq ak dofs rv fg wn chk ug ++ m).drop 2).take 2
      = toBytesBE dp 2 := rfl

theorem tcpHB_r2 :
    (((tcpHeaderBytes sp dp sq ak dofs rv fg wn chk ug ++ m).drop 2).drop 2).take 4
      = toBytesBE sq 4 := rfl

theorem tcpHB_r3 :
    ((((tcpHeaderBytes sp dp sq ak dofs rv fg wn chk ug ++ m).drop 2).drop 2).drop
      4).take 4 = toBytesBE ak 4 := rfl

theorem tcpHB_r4 :
    (((((tcpHeaderBytes sp dp sq ak dofs rv fg wn chk ug ++ m).drop 2).drop 2).drop
      4).drop 4).take 1 = toBytesBE ((dofs % 16) * 16 + rv % 16) 1 := rfl

theorem tcpHB_r5 :
    ((((((tcpHeaderBytes sp dp sq ak dofs rv fg wn chk ug ++ m).drop 2).drop 2).drop
      4).drop 4).drop 1).take 1 = toBytesBE fg 1 := rfl

theorem tcpHB_r6 :
    (((((((tcpHeaderBytes sp dp sq ak dofs rv fg wn chk ug ++ m).drop 2).drop 2).drop
      4).drop 4).drop 1).drop 1).take 2 = toBytesBE wn 2 := rfl

theorem tcpHB_r7 :
    ((((((((tcpHeaderBytes sp dp sq ak dofs rv fg wn chk ug ++ m).drop 2).drop 2).drop
      4).drop 4).drop 1).drop 1).drop 2).take 2 = toBytesBE chk 2 := rfl

theorem tcpHB_r8 :
    (((((((((tcpHeaderBytes sp dp sq ak dofs rv fg wn chk ug ++ m).drop 2).drop 2).drop
      4).drop 4).drop 1).drop 1).drop 2).drop 2).take 2 = toBytesBE ug 2 := rfl

theorem tcpHB_rest :
    (((((((((tcpHeaderBytes sp dp sq ak dofs rv fg wn chk ug ++ m).drop 2).drop 2).drop
      4).drop 4).drop 1).drop 1).drop 2).drop 2).drop 2 = m := rfl

theorem tcpHB_length :
    (tcpHeaderBytes sp dp sq ak dofs rv fg wn chk ug).length = 20 := rfl

theorem tcpHB_append_length :
    (tcpHeaderBytes sp dp sq ak dofs rv fg wn chk ug ++ m).length
      = 20 + m.length := by
  rw [List.length_append, tcpHB_length]

theorem tcpHB_drop16_take2 :
    ((tcpHeaderBytes sp dp sq ak dofs rv fg wn chk ug ++ m).drop 16).take 2
      = toBytesBE chk 2 := rfl

theorem tcpHB_zero :
    zero2At (tcpHeaderBytes sp dp sq ak dofs rv fg wn chk ug ++ m) 16
      = tcpHeaderBytes sp dp sq ak dofs rv fg wn 0 ug ++ m := rfl

end TcpLayout

section UdpLayout

variable (sp dp ln chk : Nat) (m : List Nat)

theorem udpHB_r0 :
    (udpHeaderBytes sp dp ln chk ++ m).take 2 = toBytesBE sp 2 := rfl

theorem udpHB_r1 :
    ((udpHeaderBytes sp dp ln chk ++ m).drop 2).take 2 = toBytesBE dp 2 := rfl

theorem udpHB_r2 :
    (((udpHeaderBytes sp dp ln chk ++ m).drop 2).drop 2).take 2
      = toBytesBE ln 2 := rfl

theorem udpHB_r3 :
    ((((udpHeaderBytes sp dp ln chk ++ m).drop 2).drop 2).drop 2).take 2
      = toBytesBE chk 2 := rfl

theorem udpHB_rest :
    ((((udpHeaderBytes sp dp ln chk ++ m).drop 2).drop 2).drop 2).drop 2 = m := rfl

theorem udpHB_length : (udpHeaderBytes sp dp ln chk).length = 8 := rfl

theorem udpHB_append_length :
    (udpHeaderBytes sp dp ln chk ++ m).length = 8 + m.length := by
  rw [List.length_append, udpHB_length]

theorem udpHB_drop4_take2 :
    ((udpHeaderBytes sp dp ln chk ++ m).drop 4).take 2 = toBytesBE ln 2 := rfl

theorem udpHB_drop6_take2 :
    ((udpHeaderBytes sp dp ln chk ++ m).drop 6).take 2 = toBytesBE chk 2 := rfl

theorem udpHB_zero :
    zero2At (udpHeaderBytes sp dp ln chk ++ m) 6
      = udpHeaderBytes sp dp ln 0 ++ m := rfl

end UdpLayout

/-! ## Unfolding equations for the serializer -/

theorem serializeAux_eth (ctx : Ctx) (f : List (String × Nat)) (ld : List Nat)
    (rest : Stack) :
    serializeAux ctx (⟨.eth, f, ld⟩ :: rest) =
      match serializeAux ctx rest with
      | .error e => .error e
      | .ok inner =>
          .ok (ethHeaderBytes (lookupD f fDst 0) (lookupD f fSrc 0)
            (lookupD f fType (autoEthType (nestedProto rest))) ++ inner) := rfl

theorem serializeAux_ip (ctx : Ctx) (f : List (String × Nat)) (ld : List Nat)
    (rest : Stack) :
    serializeAux ctx (⟨.ip, f, ld⟩ :: rest) =
      match serializeAux ⟨some (ipSrcOf f), some (ipDstOf f)⟩ rest with
      | .error e => .error e
      | .ok inner =>
          .ok (ipHeaderBytes (lookupD f fVersion 4) (lookupD f fIhl 5)
            (lookupD f fTos 0) (lookupD f fLen (20 + inner.length))
            (lookupD f fId 1) (lookupD f fFlags 0) (lookupD f fFrag 0)
            (lookupD f fTtl 64) (lookupD f fProto (autoIpProto (nestedProto rest)))
            (match f.lookup fChksum with
             | some v => v
             | none =>
                 checksum (ipHeaderBytes (lookupD f fVersion 4) (lookupD f fIhl 5)
                   (lookupD f fTos 0) (lookupD f fLen (20 + inner.length))
                   (lookupD f fId 1) (lookupD f fFlags 0) (lookupD f fFrag 0)
                   (lookupD f fTtl 64)
                   (lookupD f fProto (autoIpProto (nestedProto rest))) 0
                   (ipSrcOf f) (ipDstOf f)))
            (ipSrcOf f) (ipDstOf f) ++ inner) := rfl

theorem serializeAux_tcp (ctx : Ctx) (f : List (String × Nat)) (ld : List Nat)
    (rest : Stack) :
    serializeAux ctx (⟨.tcp, f, ld⟩ :: rest) =
      match serializeAux ctx rest with
      | .error e => .error e
      | .ok inner =>
        match f.lookup fChksum with
        | some v =>
            .ok (tcpHeaderBytes (lookupD f fSport 20) (lookupD f fDport 80)
              (lookupD f fSeq 0) (lookupD f fAck 0) (lookupD f fDataofs 5)
              (lookupD f fReserved 0) (lookupD f fFlags 2) (lookupD f fWindow 8192)
              v (lookupD f fUrgptr 0) ++ inner)
        | none =>
          match ctx.srcAddr, ctx.dstAddr with
          | some s, some d =>
              .ok (tcpHeaderBytes (lookupD f fSport 20) (lookupD f fDport 80)
                (lookupD f fSeq 0) (lookupD f fAck 0) (lookupD f fDataofs 5)
                (lookupD f fReserved 0) (lookupD f fFlags 2) (lookupD f fWindow 8192)
                (checksum (pseudoHeader s d 6 (20 + inner.length) ++
                  tcpHeaderBytes (lookupD f fSport 20) (lookupD f fDport 80)
                    (lookupD f fSeq 0) (lookupD f fAck 0) (lookupD f fDataofs 5)
                    (lookupD f fReserved 0) (lookupD f fFlags 2)
                    (lookupD f fWindow 8192) 0 (lookupD f fUrgptr 0) ++ inner))
                (lookupD f fUrgptr 0) ++ inner)
          | _, _ => .error (.fieldResolution fChksum) := rfl

theorem serializeAux_udp (ctx : Ctx) (f : List (String × Nat)) (ld : List Nat)
    (rest : Stack) :
    serializeAux ctx (⟨.udp, f, ld⟩ :: rest) =
      match serializeAux ctx rest with
      | .error e => .error e
      | .ok inner =>
        match f.lookup fChksum with
        | some v =>
            .ok (udpHeaderBytes (lookupD f fSport 53) (lookupD f fDport 53)
              (lookupD f fLen (8 + inner.length)) v ++ inner)
        | none =>
          match ctx.srcAddr, ctx.dstAddr with
          | some s, some d =>
              .ok (udpHeaderBytes (lookupD f fSport 53) (lookupD f fDport 53)
                (lookupD f fLen (8 + inner.length))
                (checksum (pseudoHeader s d 17 (lookupD f fLen (8 + inner.length)) ++
                  udpHeaderBytes (lookupD f fSport 53) (lookupD f fDport 53)
                    (lookupD f fLen (8 + inner.length)) 0 ++ inner)) ++ inner)
          | _, _ => .error (.fieldResolution fChksum) := rfl

theorem serializeAux_raw (ctx : Ctx) (f : List (String × Nat)) (ld : List Nat)
    (rest : Stack) :
    serializeAux ctx (⟨.raw, f, ld⟩ :: rest) =
      match serializeAux ctx rest with
      | .error e => .error e
      | .ok inner => .ok (ld ++ inner) := rfl

/-! ## Decoding a serialized header (one parser step per protocol) -/

theorem parseAux_raw_nonempty (fuel : Nat) (bytes : List Nat)
    (hf : fuel ≠ 0) (hb : bytes ≠ []) :
    parseAux fuel .raw bytes = ([⟨.raw, [], bytes⟩], none) := by
  cases fuel with
  | zero => exact absurd rfl hf
  | succ f =>
    cases bytes with
    | nil => exact absurd rfl hb
    | cons a l => simp [parseAux]

theorem parseAux_eth (fuel d s ty : Nat) (m : List Nat)
    (hd : d < 2 ^ 48) (hs : s < 2 ^ 48) (hty : ty < 2 ^ 16) :
    parseAux (fuel + 1) .eth (ethHeaderBytes d s ty ++ m) =
      if m.isEmpty then
        ([⟨.eth, [(fDst, d), (fSrc, s), (fType, ty)], []⟩], none)
      else
        ((⟨.eth, [(fDst, d), (fSrc, s), (fType, ty)], []⟩ : Layer) ::
            (parseAux fuel (if ty = 0x0800 then Proto.ip else Proto.raw) m).1,
          (parseAux fuel (if ty = 0x0800 then Proto.ip else Proto.raw) m).2) := by
  simp only [parseAux]
  rw [if_neg (by rw [ethHB_append_length]; omega)]
  rw [ethHB_take6, ethHB_r1, ethHB_r2, ethHB_rest]
  simp only [fromBytesBE_toBytesBE]
  rw [Nat.mod_eq_of_lt (show d < 2 ^ (8 * 6) from hd),
    Nat.mod_eq_of_lt (show s < 2 ^ (8 * 6) from hs),
    Nat.mod_eq_of_lt (show ty < 2 ^ (8 * 2) from hty)]

theorem parseAux_ip (fuel ver tos len idv fl fr ttl pr chk sA dA : Nat)
    (m : List Nat) (hver : ver < 16) (htos : tos < 256) (hlen : len < 65536)
    (hid : idv < 65536) (hfl : fl < 8) (hfr : fr < 8192) (httl : ttl < 256)
    (hpr : pr < 256) (hchk : chk < 65536) (hsA : sA < 2 ^ 32) (hdA : dA < 2 ^ 32) :
    parseAux (fuel + 1) .ip
        (ipHeaderBytes ver 5 tos len idv fl fr ttl pr chk sA dA ++ m) =
      if m.isEmpty then
        ([⟨.ip, [(fVersion, ver), (fIhl, 5), (fTos, tos), (fLen, len), (fId, idv),
          (fFlags, fl), (fFrag, fr), (fTtl, ttl), (fProto, pr), (fChksum, chk),
          (fSrc, sA), (fDst, dA)], []⟩], none)
      else
        ((⟨.ip, [(fVersion, ver), (fIhl, 5), (fTos, tos), (fLen, len), (fId, idv),
            (fFlags, fl), (fFrag, fr), (fTtl, ttl), (fProto, pr), (fChksum, chk),
            (fSrc, sA), (fDst, dA)], []⟩ : Layer) ::
            (parseAux fuel (if pr = 6 then Proto.tcp
              else if pr = 17 then Proto.udp else Proto.raw) m).1,
          (parseAux fuel (if pr = 6 then Proto.tcp
            else if pr = 17 then Proto.udp else Proto.raw) m).2) := by
  simp only [parseAux]
  rw [if_neg (by rw [ipHB_append_length]; omega)]
  rw [ipHB_r0, ipHB_r1, ipHB_r2, ipHB_r3, ipHB_r4, ipHB_r5, ipHB_r6, ipHB_r7,
    ipHB_r8, ipHB_r9, ipHB_rest]
  simp only [fromBytesBE_toBytesBE]
  rw [show ((ver % 16) * 16 + 5 % 16) % 2 ^ (8 * 1) = 16 * ver + 5 from by
    norm_num; omega]
  rw [show (16 * ver + 5) % 16 = 5 from by omega]
  rw [show (16 * ver + 5) / 16 = ver from by omega]
  rw [show ((fl % 8) * 8192 + fr % 8192) % 2 ^ (8 * 2) = 8192 * fl + fr from by
    norm_num; omega]
  rw [show (8192 * fl + fr) / 8192 = fl from by omega]
  rw [show (8192 * fl + fr) % 8192 = fr from by omega]
  rw [Nat.mod_eq_of_lt (show tos < 2 ^ (8 * 1) from by norm_num; omega),
    Nat.mod_eq_of_lt (show len < 2 ^ (8 * 2) from by norm_num; omega),
    Nat.mod_eq_of_lt (show idv < 2 ^ (8 * 2) from by norm_num; omega),
    Nat.mod_eq_of_lt (show ttl < 2 ^ (8 * 1) from by norm_num; omega),
    Nat.mod_eq_of_lt (show pr < 2 ^ (8 * 1) from by norm_num; omega),
    Nat.mod_eq_of_lt (show chk < 2 ^ (8 * 2) from by norm_num; omega),
    Nat.mod_eq_of_lt (show sA < 2 ^ (8 * 4) from hsA),
    Nat.mod_eq_of_lt (show dA < 2 ^ (8 * 4) from hdA)]
  rw [if_neg (by rw [ipHB_append_length]; omega)]
  rw [show (4 * 5 - 20 : Nat) = 0 from rfl, List.take_zero, List.drop_zero]

theorem parseAux_tcp (fuel sp dp sq ak rv fg wn chk ug : Nat)
    (m : List Nat) (hsp : sp < 65536) (hdp : dp < 65536) (hsq : sq < 2 ^ 32)
    (hak : ak < 2 ^ 32) (hrv : rv < 16) (hfg : fg < 256) (hwn : wn < 65536)
    (hchk : chk < 65536) (hug : ug < 65536) :
    parseAux (fuel + 1) .tcp
        (tcpHeaderBytes sp dp sq ak 5 rv fg wn chk ug ++ m) =
      if m.isEmpty then
        ([⟨.tcp, [(fSport, sp), (fDport, dp), (fSeq, sq), (fAck, ak),
          (fDataofs, 5), (fReserved, rv), (fFlags, fg), (fWindow, wn),
          (fChksum, chk), (fUrgptr, ug)], []⟩], none)
      else
        ((⟨.tcp, [(fSport, sp), (fDport, dp), (fSeq, sq), (fAck, ak),
            (fDataofs, 5), (fReserved, rv), (fFlags, fg), (fWindow, wn),
            (fChksum, chk), (fUrgptr, ug)], []⟩ : Layer) ::
            (parseAux fuel Proto.raw m).1,
          (parseAux fuel Proto.raw m).2) := by
  simp only [parseAux]
  rw [if_neg (by rw [tcpHB_append_length]; omega)]
  rw [tcpHB_r0, tcpHB_r1, tcpHB_r2, tcpHB_r3, tcpHB_r4, tcpHB_r5, tcpHB_r6,
    tcpHB_r7, tcpHB_r8, tcpHB_rest]
  simp only [fromBytesBE_toBytesBE]
  rw [show ((5 % 16) * 16 + rv % 16) % 2 ^ (8 * 1) = 16 * 5 + rv from by
    norm_num; omega]
  rw [show (16 * 5 + rv) / 16 = 5 from by omega]
  rw [show (16 * 5 + rv) % 16 = rv from by omega]
  rw [Nat.mod_eq_of_lt (show sp < 2 ^ (8 * 2) from by norm_num; omega),
    Nat.mod_eq_of_lt (show dp < 2 ^ (8 * 2) from by norm_num; omega),
    Nat.mod_eq_of_lt (show sq < 2 ^ (8 * 4) from hsq),
    Nat.mod_eq_of_lt (show ak < 2 ^ (8 * 4) from hak),
    Nat.mod_eq_of_lt (show fg < 2 ^ (8 * 1) from by norm_num; omega),
    Nat.mod_eq_of_lt (show wn < 2 ^ (8 * 2) from by norm_num; omega),
    Nat.mod_eq_of_lt (show chk < 2 ^ (8 * 2) from by norm_num; omega),
    Nat.mod_eq_of_lt (show ug < 2 ^ (8 * 2) from by norm_num; omega)]
  rw [if_neg (by rw [tcpHB_append_length]; omega)]
  rw [show (4 * 5 - 20 : Nat) = 0 from rfl, List.take_zero, List.drop_zero]

theorem parseAux_udp (fuel sp dp ln chk : Nat) (m : List Nat)
    (hsp : sp < 65536) (hdp : dp < 65536) (hln : ln < 65536) (hchk : chk < 65536) :
    parseAux (fuel + 1) .udp (udpHeaderBytes sp dp ln chk ++ m) =
      if m.isEmpty then
        ([⟨.udp, [(fSport, sp), (fDport, dp), (fLen, ln), (fChksum, chk)], []⟩],
          none)
      else
        ((⟨.udp, [(fSport, sp), (fDport, dp), (fLen, ln), (fChksum, chk)],
            []⟩ : Layer) :: (parseAux fuel Proto.raw m).1,
          (parseAux fuel Proto.raw m).2) := by
  simp only [parseAux]
  rw [if_neg (by rw [udpHB_append_length]; omega)]
  rw [udpHB_r0, udpHB_r1, udpHB_r2, udpHB_r3, udpHB_rest]
  simp only [fromBytesBE_toBytesBE]
  rw [Nat.mod_eq_of_lt (show sp < 2 ^ (8 * 2) from by norm_num; omega),
    Nat.mod_eq_of_lt (show dp < 2 ^ (8 * 2) from by norm_num; omega),
    Nat.mod_eq_of_lt (show ln < 2 ^ (8 * 2) from by norm_num; omega),
    Nat.mod_eq_of_lt (show chk < 2 ^ (8 * 2) from by norm_num; omega)]

/-! ## Claim theorems -/

/-- C9: stack composition is associative — serializing `(A ⧺ B) ⧺ C` and
`A ⧺ (B ⧺ C)` yields the same final byte layout. -/
theorem c9_compose_assoc (A B C : Stack) :
    serialize (compose (compose A B) C) = serialize (compose A (compose B C)) := by
  simp [compose, List.append_assoc]

/-- C10: a stack need not begin with an Ethernet layer.  Serializing the
IP-over-TCP stack with no payload and all derived fields unset succeeds,
yields exactly 40 bytes, and the emitted bytes carry total length 40, IHL 5
(byte 0 low nibble) and TCP data offset 5 (byte 32 high nibble). -/
theorem c10_ip_over_tcp_40_bytes :
    serialize c10Stack = .ok c10Bytes ∧ c10Bytes.length = 40 ∧
    fromBytesBE ((c10Bytes.drop 2).take 2) = 40 ∧
    fromBytesBE (c10Bytes.take 1) % 16 = 5 ∧
    fromBytesBE ((c10Bytes.drop 32).take 1) / 16 = 5 := by decide

/-- C8: serializing a stack whose TCP (or UDP) layer has an unset checksum and
no enclosing IP layer to supply the pseudo-header addresses fails with
`FieldResolutionError` rather than producing bytes. -/
theorem c8_field_resolution_error (fT fU : List (String × Nat))
    (ldT ldU : List Nat) (restT restU : Stack)
    (hT : fT.lookup fChksum = none) (hU : fU.lookup fChksum = none) :
    (∃ msg, serialize (⟨.tcp, fT, ldT⟩ :: restT) = .error (.fieldResolution msg)) ∧
    (∃ msg, serialize (⟨.udp, fU, ldU⟩ :: restU) = .error (.fieldResolution msg)) := by
  constructor
  · cases h : serializeAux emptyCtx restT with
    | error e =>
      cases e with
      | fieldResolution msg =>
        exact ⟨msg, by simp only [serialize, serializeAux_tcp, h]⟩
    | ok inner =>
      exact ⟨fChksum, by simp only [serialize, serializeAux_tcp, h, hT]; rfl⟩
  · cases h : serializeAux emptyCtx restU with
    | error e =>
      cases e with
      | fieldResolution msg =>
        exact ⟨msg, by simp only [serialize, serializeAux_udp, h]⟩
    | ok inner =>
      exact ⟨fChksum, by simp only [serialize, serializeAux_udp, h, hU]; rfl⟩

/-- C8 witness: a lone TCP layer (and a lone UDP layer) with no fields set
fails to serialize with `FieldResolutionError`. -/
theorem c8_field_resolution_error_witness :
    (∃ msg, serialize (⟨.tcp, [], []⟩ :: []) = .error (.fieldResolution msg)) ∧
    (∃ msg, serialize (⟨.udp, [], []⟩ :: []) = .error (.fieldResolution msg)) :=
  c8_field_resolution_error [] [] [] [] [] [] (by decide) (by decide)

/-- C5: an explicitly set checksum is emitted verbatim at the checksum's
offset (bytes 10–11 of the IP header, bytes 16–17 of the TCP header, bytes
6–7 of the UDP header) and is never recomputed, regardless of what the
auto-computation would produce. -/
theorem c5_manual_checksum_pinning :
    (∀ (f : List (String × Nat)) (ld : List Nat) (rest : Stack) (ctx : Ctx)
      (v : Nat) (out : List Nat),
      f.lookup fChksum = some v → v < 65536 →
      serializeAux ctx (⟨.ip, f, ld⟩ :: rest) = .ok out →
      fromBytesBE ((out.drop 10).take 2) = v) ∧
    (∀ (f : List (String × Nat)) (ld : List Nat) (rest : Stack) (ctx : Ctx)
      (v : Nat) (out : List Nat),
      f.lookup fChksum = some v → v < 65536 →
      serializeAux ctx (⟨.tcp, f, ld⟩ :: rest) = .ok out →
      fromBytesBE ((out.drop 16).take 2) = v) ∧
    (∀ (f : List (String × Nat)) (ld : List Nat) (rest : Stack) (ctx : Ctx)
      (v : Nat) (out : List Nat),
      f.lookup fChksum = some v → v < 65536 →
      serializeAux ctx (⟨.udp, f, ld⟩ :: rest) = .ok out →
      fromBytesBE ((out.drop 6).take 2) = v) := by
  refine ⟨?_, ?_, ?_⟩
  · intro f ld rest ctx v out hv hlt hser
    rw [serializeAux_ip] at hser
    cases h : serializeAux ⟨some (ipSrcOf f), some (ipDstOf f)⟩ rest with
    | error e => simp [h] at hser
    | ok inner =>
      simp only [h, hv] at hser
      simp only [Except.ok.injEq] at hser
      subst hser
      rw [ipHB_drop10_take2, fromBytesBE_toBytesBE]
      exact Nat.mod_eq_of_lt (show v < 2 ^ (8 * 2) from by norm_num; omega)
  · intro f ld rest ctx v out hv hlt hser
    rw [serializeAux_tcp] at hser
    cases h : serializeAux ctx rest with
    | error e => simp [h] at hser
    | ok inner =>
      simp only [h, hv] at hser
      simp only [Except.ok.injEq] at hser
      subst hser
      rw [tcpHB_drop16_take2, fromBytesBE_toBytesBE]
      exact Nat.mod_eq_of_lt (show v < 2 ^ (8 * 2) from by norm_num; omega)
  · intro f ld rest ctx v out hv hlt hser
    rw [serializeAux_udp] at hser
    cases h : serializeAux ctx rest with
    | error e => simp [h] at hser
    | ok inner =>
      simp only [h, hv] at hser
      simp only [Except.ok.injEq] at hser
      subst hser
      rw [udpHB_drop6_take2, fromBytesBE_toBytesBE]
      exact Nat.mod_eq_of_lt (show v < 2 ^ (8 * 2) from by norm_num; omega)

/-- C5 witness: pinning the IP checksum to 0xFFFF puts exactly 0xFFFF at
bytes 10–11 of the emitted header. -/
theorem c5_manual_checksum_pinning_witness :
    fromBytesBE ((c5wBytes.drop 10).take 2) = 0xFFFF :=
  c5_manual_checksum_pinning.1 [(fSrc, 1), (fDst, 2), (fChksum, 0xFFFF)] [] []
    emptyCtx 0xFFFF c5wBytes (by decide) (by decide) (by decide)

/-- C4: protocol-number auto-linking.  With the next-protocol field unset,
IP over TCP emits protocol byte 6, IP over UDP emits 17, Ethernet over IPv4
emits EtherType 0x0800, and an unrecognized nested layer leaves the neutral
default 0 (for both IP's protocol field and Ethernet's type field). -/
theorem c4_protocol_auto_linking :
    (∀ (fI gT : List (String × Nat)) (ldI ldT : List Nat) (rest : Stack)
      (ctx : Ctx) (out : List Nat),
      fI.lookup fProto = none →
      serializeAux ctx (⟨.ip, fI, ldI⟩ :: ⟨.tcp, gT, ldT⟩ :: rest) = .ok out →
      fromBytesBE ((out.drop 9).take 1) = 6) ∧
    (∀ (fI gU : List (String × Nat)) (ldI ldU : List Nat) (rest : Stack)
      (ctx : Ctx) (out : List Nat),
      fI.lookup fProto = none →
      serializeAux ctx (⟨.ip, fI, ldI⟩ :: ⟨.udp, gU, ldU⟩ :: rest) = .ok out →
      fromBytesBE ((out.drop 9).take 1) = 17) ∧
    (∀ (fE gI : List (String × Nat)) (ldE ldI : List Nat) (rest : Stack)
      (ctx : Ctx) (out : List Nat),
      fE.lookup fType = none →
      serializeAux ctx (⟨.eth, fE, ldE⟩ :: ⟨.ip, gI, ldI⟩ :: rest) = .ok out →
      fromBytesBE ((out.drop 12).take 2) = 0x0800) ∧
    (∀ (fI : List (String × Nat)) (ldI : List Nat) (l2 : Layer) (rest : Stack)
      (ctx : Ctx) (out : List Nat),
      fI.lookup fProto = none → l2.proto ≠ .tcp → l2.proto ≠ .udp →
      serializeAux ctx (⟨.ip, fI, ldI⟩ :: l2 :: rest) = .ok out →
      fromBytesBE ((out.drop 9).take 1) = 0) ∧
    (∀ (fE : List (String × Nat)) (ldE : List Nat) (l2 : Layer) (rest : Stack)
      (ctx : Ctx) (out : List Nat),
      fE.lookup fType = none → l2.proto ≠ .ip →
      serializeAux ctx (⟨.eth, fE, ldE⟩ :: l2 :: rest) = .ok out →
      fromBytesBE ((out.drop 12).take 2) = 0) := by
  refine ⟨?_, ?_, ?_, ?_, ?_⟩
  · intro fI gT ldI ldT rest ctx out hv hser
    rw [serializeAux_ip] at hser
    cases h : serializeAux ⟨some (ipSrcOf fI), some (ipDstOf fI)⟩
        (⟨.tcp, gT, ldT⟩ :: rest) with
    | error e => simp [h] at hser
    | ok inner =>
      simp only [h, nestedProto, autoIpProto, lookupD, hv, Option.getD_none,
        Except.ok.injEq] at hser
      subst hser
      rw [ipHB_drop9_take1, fromBytesBE_toBytesBE]
      decide
  · intro fI gU ldI ldU rest ctx out hv hser
    rw [serializeAux_ip] at hser
    cases h : serializeAux ⟨some (ipSrcOf fI), some (ipDstOf fI)⟩
        (⟨.udp, gU, ldU⟩ :: rest) with
    | error e => simp [h] at hser
    | ok inner =>
      simp only [h, nestedProto, autoIpProto, lookupD, hv, Option.getD_none,
        Except.ok.injEq] at hser
      subst hser
      rw [ipHB_drop9_take1, fromBytesBE_toBytesBE]
      decide
  · intro fE gI ldE ldI rest ctx out hv hser
    rw [serializeAux_eth] at hser
    cases h : serializeAux ctx (⟨.ip, gI, ldI⟩ :: rest) with
    | error e => simp [h] at hser
    | ok inner =>
      simp only [h, nestedProto, autoEthType, lookupD, hv, Option.getD_none,
        Except.ok.injEq] at hser
      subst hser
      rw [ethHB_drop12_take2, fromBytesBE_toBytesBE]
      decide
  · intro fI ldI l2 rest ctx out hv h2 h3 hser
    rw [serializeAux_ip] at hser
    cases h : serializeAux ⟨some (ipSrcOf fI), some (ipDstOf fI)⟩ (l2 :: rest) with
    | error e => simp [h] at hser
    | ok inner =>
      have hneutral : autoIpProto (nestedProto (l2 :: rest)) = 0 := by
        simp only [nestedProto]
        cases hp : l2.proto with
        | tcp => exact absurd hp h2
        | udp => exact absurd hp h3
        | eth => rfl
        | ip => rfl
        | raw => rfl
      simp only [h, hneutral, lookupD, hv, Option.getD_none,
        Except.ok.injEq] at hser
      subst hser
      rw [ipHB_drop9_take1, fromBytesBE_toBytesBE]
      decide
  · intro fE ldE l2 rest ctx out hv h2 hser
    rw [serializeAux_eth] at hser
    cases h : serializeAux ctx (l2 :: rest) with
    | error e => simp [h] at hser
    | ok inner =>
      have hneutral : autoEthType (nestedProto (l2 :: rest)) = 0 := by
        simp only [nestedProto]
        cases hp : l2.proto with
        | ip => exact absurd hp h2
        | eth => rfl
        | tcp => rfl
        | udp => rfl
        | raw => rfl
      simp only [h, hneutral, lookupD, hv, Option.getD_none,
        Except.ok.injEq] at hser
      subst hser
      rw [ethHB_drop12_take2, fromBytesBE_toBytesBE]
      decide

/-- C4 witness: the concrete IP-over-TCP stack with unset protocol field
serializes with protocol byte 6. -/
theorem c4_protocol_auto_linking_witness :
    fromBytesBE ((c10Bytes.drop 9).take 1) = 6 :=
  c4_protocol_auto_linking.1 [(fSrc, 0x7F000001), (fDst, 0x7F000001)]
    [(fSport, 54321), (fDport, 80), (fFlags, 2), (fSeq, 1000), (fWindow, 65535)]
    [] [] [] emptyCtx c10Bytes (by decide) (by decide)

/-- C6: whenever a decoded next-protocol value has no dispatch-table entry,
all remaining bytes degrade to one opaque terminal raw payload layer with no
error — both for the Ethernet type dispatch (any type value other than
0x0800, e.g. 0x1234) and for the IP protocol dispatch (any protocol value
other than 6 and 17, e.g. 99). -/
theorem c6_unknown_dispatch_degrades_to_raw :
    (∀ (d s ty : Nat) (rest : List Nat),
      d < 2 ^ 48 → s < 2 ^ 48 → ty < 2 ^ 16 → ty ≠ 0x0800 → rest ≠ [] →
      parse (ethHeaderBytes d s ty ++ rest) .eth =
        ([⟨.eth, [(fDst, d), (fSrc, s), (fType, ty)], []⟩, ⟨.raw, [], rest⟩],
          none)) ∧
    (∀ (ver tos lenv idv fl fr ttl pv cv sA dA : Nat) (rest : List Nat),
      ver < 16 → tos < 256 → lenv < 65536 → idv < 65536 → fl < 8 → fr < 8192 →
      ttl < 256 → pv < 256 → cv < 65536 → sA < 2 ^ 32 → dA < 2 ^ 32 →
      pv ≠ 6 → pv ≠ 17 → rest ≠ [] →
      parse (ipHeaderBytes ver 5 tos lenv idv fl fr ttl pv cv sA dA ++ rest)
          .ip =
        ([⟨.ip, [(fVersion, ver), (fIhl, 5), (fTos, tos), (fLen, lenv),
          (fId, idv), (fFlags, fl), (fFrag, fr), (fTtl, ttl), (fProto, pv),
          (fChksum, cv), (fSrc, sA), (fDst, dA)], []⟩, ⟨.raw, [], rest⟩],
          none)) := by
  constructor
  · intro d s ty rest hd hs hty hty8 hrest
    simp only [parse]
    rw [parseAux_eth _ d s ty rest hd hs hty]
    cases rest with
    | nil => exact absurd rfl hrest
    | cons a l =>
      rw [if_neg (by simp)]
      rw [if_neg hty8]
      rw [parseAux_raw_nonempty _ _ (by rw [ethHB_append_length]; omega)
        (by simp)]
  · intro ver tos lenv idv fl fr ttl pv cv sA dA rest hver htos hlenv hidv hfl
      hfr httl hpv hcv hsA hdA hp6 hp17 hrest
    simp only [parse]
    rw [parseAux_ip _ ver tos lenv idv fl fr ttl pv cv sA dA rest hver htos
      hlenv hidv hfl hfr httl hpv hcv hsA hdA]
    cases rest with
    | nil => exact absurd rfl hrest
    | cons a l =>
      rw [if_neg (by simp)]
      rw [if_neg hp6, if_neg hp17]
      rw [parseAux_raw_nonempty _ _ (by rw [ipHB_append_length]; omega)
        (by simp)]

/-- C6 witness: the spec's scenario — EtherType 0x1234 followed by 6
arbitrary bytes parses as [Ethernet, opaque raw payload of 6 bytes], no
error — and an IP header with unassigned protocol number 99 followed by 6
bytes parses as [IP, opaque raw payload], no error. -/
theorem c6_unknown_dispatch_degrades_to_raw_witness :
    (parse (ethHeaderBytes 0x010203040506 0x0708090A0B0C 0x1234 ++
        [99, 98, 97, 96, 95, 94]) .eth =
      ([⟨.eth, [(fDst, 0x010203040506), (fSrc, 0x0708090A0B0C),
        (fType, 0x1234)], []⟩, ⟨.raw, [], [99, 98, 97, 96, 95, 94]⟩], none)) ∧
    (parse (ipHeaderBytes 4 5 0 26 1 0 0 64 99 0 0x0A000001 0x0A000002 ++
        [1, 2, 3, 4, 5, 6]) .ip =
      ([⟨.ip, [(fVersion, 4), (fIhl, 5), (fTos, 0), (fLen, 26), (fId, 1),
        (fFlags, 0), (fFrag, 0), (fTtl, 64), (fProto, 99), (fChksum, 0),
        (fSrc, 0x0A000001), (fDst, 0x0A000002)], []⟩,
        ⟨.raw, [], [1, 2, 3, 4, 5, 6]⟩], none)) :=
  ⟨c6_unknown_dispatch_degrades_to_raw.1 0x010203040506 0x0708090A0B0C 0x1234
    [99, 98, 97, 96, 95, 94] (by decide) (by decide) (by decide) (by decide)
    (by decide),
  c6_unknown_dispatch_degrades_to_raw.2 4 0 26 1 0 0 64 99 0 0x0A000001
    0x0A000002 [1, 2, 3, 4, 5, 6] (by decide) (by decide) (by decide)
    (by decide) (by decide) (by decide) (by decide) (by decide) (by decide)
    (by decide) (by decide) (by decide) (by decide) (by decide)⟩

/-- C7 counterexample: the first 10 bytes of the valid 54-byte
Ethernet+IP+TCP buffer are shorter than the 14-byte Ethernet header, so the
partial stack is empty with a truncated-Ethernet marker — it does not contain
a complete Ethernet layer as the claim states. -/
theorem c7_truncated_counterexample :
    buffer54.length = 54 ∧
    parse (buffer54.take 10) .eth = ([], some (.truncated .eth)) := by decide

/-- C7 as amended: whenever fewer bytes remain than the current schema's
declared fixed header width, parse fails with `TruncatedPacketError`, keeping
the stack of layers fully decoded so far and marking the incomplete layer; at
10 bytes even the Ethernet layer is incomplete (empty partial stack), and at
24 bytes the partial stack holds the fully decoded Ethernet layer with a
truncated-IP marker. -/
theorem c7_truncated_partial_stack :
    (∀ (hint : Proto) (bytes : List Nat), bytes ≠ [] →
      bytes.length < fixedWidth hint →
      parse bytes hint = ([], some (.truncated hint))) ∧
    parse (buffer54.take 24) .eth =
      ([⟨.eth, [(fDst, 0xFFEEDD445566), (fSrc, 0xAABBCC112233),
        (fType, 0x0800)], []⟩], some (.truncated .ip)) := by
  constructor
  · intro hint bytes hb hlt
    cases hint with
    | raw => exact absurd hlt (by simp [fixedWidth])
    | eth =>
      simp only [parse, parseAux]
      rw [if_pos (by simpa [fixedWidth] using hlt)]
    | ip =>
      simp only [parse, parseAux]
      rw [if_pos (by simpa [fixedWidth] using hlt)]
    | tcp =>
      simp only [parse, parseAux]
      rw [if_pos (by simpa [fixedWidth] using hlt)]
    | udp =>
      simp only [parse, parseAux]
      rw [if_pos (by simpa [fixedWidth] using hlt)]
  · decide

/-- C7 witness: a single stray byte parsed as IP yields an empty partial
stack with a truncated-IP marker. -/
theorem c7_truncated_partial_stack_witness :
    parse [0] .ip = ([], some (.truncated .ip)) :=
  c7_truncated_partial_stack.1 .ip [0] (by decide) (by decide)

/-- C3 counterexample: a serialized IP header whose checksum was explicitly
pinned to 0xFFFF carries embedded checksum 0xFFFF, while recomputing the
one's-complement sum over the header bytes with the checksum zeroed yields a
different value — so the claim's "for any serialized IP header" fails. -/
theorem c3_checksum_counterexample :
    serialize c3exStack = .ok c3exBytes ∧
    fromBytesBE ((c3exBytes.drop 10).take 2) = 0xFFFF ∧
    checksum (zero2At (c3exBytes.take 20) 10) ≠ 0xFFFF := by decide

/-- C3 as amended: every checksum the engine computes (i.e. when the checksum
field was left unset) is the one's complement end-around-carry sum of the
target region with the checksum bytes zeroed: for any serialized IP header
the recomputed sum over the header bytes equals the embedded checksum, and
for any serialized TCP/UDP segment inside an IP layer the same holds with the
pseudo-header (built from the enclosing IP's resolved addresses) prepended —
the pseudo-header's segment-length component being the TCP segment's wire
length, and for UDP the value of the segment's own emitted length field. -/
theorem c3_checksum_amended :
    (∀ (f : List (String × Nat)) (ld : List Nat) (rest : Stack) (ctx : Ctx)
      (out : List Nat),
      f.lookup fChksum = none →
      serializeAux ctx (⟨.ip, f, ld⟩ :: rest) = .ok out →
      checksum (zero2At (out.take 20) 10) = fromBytesBE ((out.drop 10).take 2)) ∧
    (∀ (fI fT : List (String × Nat)) (ldI ldT : List Nat) (rest : Stack)
      (ctx : Ctx) (out : List Nat),
      fT.lookup fChksum = none →
      serializeAux ctx (⟨.ip, fI, ldI⟩ :: ⟨.tcp, fT, ldT⟩ :: rest) = .ok out →
      checksum (pseudoHeader (ipSrcOf fI) (ipDstOf fI) 6 (out.drop 20).length ++
          zero2At (out.drop 20) 16)
        = fromBytesBE (((out.drop 20).drop 16).take 2)) ∧
    (∀ (fI fU : List (String × Nat)) (ldI ldU : List Nat) (rest : Stack)
      (ctx : Ctx) (out : List Nat),
      fU.lookup fChksum = none →
      serializeAux ctx (⟨.ip, fI, ldI⟩ :: ⟨.udp, fU, ldU⟩ :: rest) = .ok out →
      checksum (pseudoHeader (ipSrcOf fI) (ipDstOf fI) 17
          (fromBytesBE (((out.drop 20).drop 4).take 2)) ++
          zero2At (out.drop 20) 6)
        = fromBytesBE (((out.drop 20).drop 6).take 2)) := by
  refine ⟨?_, ?_, ?_⟩
  · intro f ld rest ctx out hv hser
    rw [serializeAux_ip] at hser
    cases h : serializeAux ⟨some (ipSrcOf f), some (ipDstOf f)⟩ rest with
    | error e => simp [h] at hser
    | ok inner =>
      simp only [h, hv, Except.ok.injEq] at hser
      subst hser
      rw [ipHB_take20, ipHB_zero, ipHB_drop10_take2, fromBytesBE_toBytesBE]
      exact (Nat.mod_eq_of_lt (show _ < 2 ^ (8 * 2) from by
        norm_num; exact checksum_lt _)).symm
  · intro fI fT ldI ldT rest ctx out hT hser
    rw [serializeAux_ip, serializeAux_tcp] at hser
    cases h : serializeAux ⟨some (ipSrcOf fI), some (ipDstOf fI)⟩ rest with
    | error e => simp [h] at hser
    | ok inner =>
      simp only [h, hT, Except.ok.injEq] at hser
      subst hser
      rw [ipHB_drop20, tcpHB_append_length, tcpHB_zero, tcpHB_drop16_take2,
        fromBytesBE_toBytesBE]
      exact (Nat.mod_eq_of_lt (show _ < 2 ^ (8 * 2) from by
        norm_num; exact checksum_lt _)).symm
  · intro fI fU ldI ldU rest ctx out hU hser
    rw [serializeAux_ip, serializeAux_udp] at hser
    cases h : serializeAux ⟨some (ipSrcOf fI), some (ipDstOf fI)⟩ rest with
    | error e => simp [h] at hser
    | ok inner =>
      simp only [h, hU, Except.ok.injEq] at hser
      subst hser
      rw [ipHB_drop20, udpHB_drop4_take2, udpHB_zero, udpHB_drop6_take2]
      simp only [fromBytesBE_toBytesBE]
      rw [pseudoHeader_mod]
      exact (Nat.mod_eq_of_lt (show _ < 2 ^ (8 * 2) from by
        norm_num; exact checksum_lt _)).symm

/-- C3 witness: the auto-computed checksum of a concrete serialized IP
header verifies against the emitted bytes. -/
theorem c3_checksum_amended_witness :
    checksum (zero2At (c3wBytes.take 20) 10)
      = fromBytesBE ((c3wBytes.drop 10).take 2) :=
  c3_checksum_amended.1 [(fSrc, 0x0A000001), (fDst, 0x0A000002)] [] [] emptyCtx
    c3wBytes (by decide) (by decide)

/-! ## Well-formedness unpacking -/

theorem wfStackB_cons (l : Layer) (rest : Stack)
    (h : wfStackB (l :: rest) = true) :
    wfOneB l = true ∧ wfStackB rest = true ∧
      ∀ nxt rest', rest = nxt :: rest' → linkOkB l nxt = true := by
  cases rest with
  | nil => exact ⟨h, rfl, fun nxt rest' hc => nomatch hc⟩
  | cons nxt rest' =>
    simp only [wfStackB, Bool.and_eq_true] at h
    exact ⟨h.1.1, h.2, fun n r hc => by cases hc; exact h.1.2⟩

theorem fullyExplicit_lookup (l : Layer) (h : fullyExplicitB l = true)
    (n : String) (hn : n ∈ schemaNames l.proto) :
    ∃ v, l.fields.lookup n = some v := by
  simp only [fullyExplicitB, List.all_eq_true] at h
  have hx := h n hn
  cases hl : l.fields.lookup n with
  | some v => exact ⟨v, rfl⟩
  | none => rw [hl] at hx; simp at hx

theorem inRange_lookup (l : Layer) (h : inRangeB l = true) (n : String)
    (hn : n ∈ schemaNames l.proto) (v : Nat) (hv : l.fields.lookup n = some v) :
    v < 2 ^ widthOf l.proto n := by
  simp only [inRangeB, List.all_eq_true] at h
  have hx := h n hn
  rw [hv] at hx
  exact of_decide_eq_true hx

theorem wfOneB_parts (l : Layer) (h : wfOneB l = true) :
    fullyExplicitB l = true ∧ inRangeB l = true ∧
    (l.proto = .ip → l.fields.lookup fIhl = some 5) ∧
    (l.proto = .tcp → l.fields.lookup fDataofs = some 5) ∧
    (l.proto = .raw → l.load ≠ []) ∧
    (l.proto ≠ .raw → l.load = []) := by
  simp only [wfOneB, Bool.and_eq_true] at h
  obtain ⟨⟨⟨hfe, hir⟩, hm⟩, hld⟩ := h
  refine ⟨hfe, hir, ?_, ?_, ?_, ?_⟩
  · intro hp; rw [hp] at hm; simpa using hm
  · intro hp; rw [hp] at hm; simpa using hm
  · intro hp
    rw [hp] at hm
    simp only [Bool.and_eq_true] at hm
    cases hload : l.load with
    | nil => rw [hload] at hm; simp at hm
    | cons a t => simp [hload]
  · intro hp
    simp only [Bool.or_eq_true] at hld
    cases hld with
    | inl hc => exact absurd (by simpa using hc) hp
    | inr hc => exact List.isEmpty_iff.mp hc

/-- Serializing a nonempty well-formed fully explicit stack succeeds with a
nonempty byte string, and parsing those bytes (with enough fuel) reconstructs
a stack whose layers match the original layer by layer. -/
theorem stack_roundtrip_aux :
    ∀ s : Stack, wfStackB s = true → s ≠ [] → ∀ ctx : Ctx,
      ∃ out, serializeAux ctx s = .ok out ∧ out ≠ [] ∧
        ∀ fuel, out.length < fuel →
          ∃ parsed, parseAux fuel (headProto s) out = (parsed, none) ∧
            List.Forall₂ layerMatch parsed s := by
  intro s
  induction s with
  | nil => intro _ hne; exact absurd rfl hne
  | cons l rest ih =>
    intro hwf hne ctx
    obtain ⟨hone, hwfrest, hlink⟩ := wfStackB_cons l rest hwf
    obtain ⟨hfe, hir, hihl, hdofs, hrawne, hload⟩ := wfOneB_parts l hone
    obtain ⟨p, f, ld⟩ := l
    cases p with
    | raw =>
      cases rest with
      | cons nxt rest' =>
        have hl := hlink nxt rest' rfl
        simp [linkOkB] at hl
      | nil =>
        have hldne : ld ≠ [] := hrawne rfl
        have hserEq : serializeAux ctx [(⟨.raw, f, ld⟩ : Layer)]
            = .ok (ld ++ []) := by
          rw [serializeAux_raw]
          rfl
        refine ⟨ld ++ [], hserEq, by simpa using hldne, ?_⟩
        intro fuel hfuel
        simp only [headProto]
        rw [parseAux_raw_nonempty fuel (ld ++ []) (by omega)
          (by simpa using hldne)]
        refine ⟨[⟨.raw, [], ld ++ []⟩], rfl,
          List.Forall₂.cons ⟨rfl, by simp, ?_⟩ List.Forall₂.nil⟩
        intro n hn
        simp [schemaNames, schemaOf] at hn
    | eth =>
      obtain ⟨d, hd⟩ := fullyExplicit_lookup _ hfe fDst
        (show fDst ∈ schemaNames Proto.eth from by decide)
      obtain ⟨sv, hsv⟩ := fullyExplicit_lookup _ hfe fSrc
        (show fSrc ∈ schemaNames Proto.eth from by decide)
      obtain ⟨tv, htv⟩ := fullyExplicit_lookup _ hfe fType
        (show fType ∈ schemaNames Proto.eth from by decide)
      have hd48 : d < 2 ^ 48 := inRange_lookup _ hir fDst
        (show fDst ∈ schemaNames Proto.eth from by decide) d hd
      have hs48 : sv < 2 ^ 48 := inRange_lookup _ hir fSrc
        (show fSrc ∈ schemaNames Proto.eth from by decide) sv hsv
      have ht16 : tv < 2 ^ 16 := inRange_lookup _ hir fType
        (show fType ∈ schemaNames Proto.eth from by decide) tv htv
      have hld0 : ld = [] := hload (show Proto.eth ≠ Proto.raw from by decide)
      subst hld0
      cases rest with
      | nil =>
        have hserEq : serializeAux ctx [(⟨.eth, f, []⟩ : Layer)]
            = .ok (ethHeaderBytes d sv tv ++ []) := by
          rw [serializeAux_eth]
          simp only [lookupD, hd, hsv, htv, Option.getD_some]
          rfl
        refine ⟨ethHeaderBytes d sv tv ++ [], hserEq, ?_, ?_⟩
        · intro hc
          have hlen := ethHB_append_length d sv tv ([] : List Nat)
          rw [hc] at hlen
          simp at hlen
        · intro fuel hfuel
          cases fuel with
          | zero => exact absurd hfuel (Nat.not_lt_zero _)
          | succ fu =>
            simp only [headProto]
            rw [parseAux_eth fu d sv tv [] hd48 hs48 ht16]
            simp only [List.isEmpty_nil, if_true]
            refine ⟨[⟨.eth, [(fDst, d), (fSrc, sv), (fType, tv)], []⟩], rfl,
              List.Forall₂.cons ⟨rfl, rfl, ?_⟩ List.Forall₂.nil⟩
            intro n hn
            rcases (by simpa [schemaNames, schemaOf, ethSchema] using hn :
              n = fDst ∨ n = fSrc ∨ n = fType) with rfl | rfl | rfl
            · rw [hd]; rfl
            · rw [hsv]; rfl
            · rw [htv]; rfl
      | cons nxt rest' =>
        have hl := hlink nxt rest' rfl
        obtain ⟨inner, hser_rest, hinner_ne, hparse_rest⟩ :=
          ih hwfrest (by simp) ctx
        have hserEq : serializeAux ctx ((⟨.eth, f, []⟩ : Layer) :: nxt :: rest')
            = .ok (ethHeaderBytes d sv tv ++ inner) := by
          rw [serializeAux_eth, hser_rest]
          simp only [lookupD, hd, hsv, htv, Option.getD_some]
        refine ⟨ethHeaderBytes d sv tv ++ inner, hserEq, ?_, ?_⟩
        · intro hc
          have hlen := ethHB_append_length d sv tv inner
          rw [hc] at hlen
          simp at hlen
          omega
        · intro fuel hfuel
          cases fuel with
          | zero => exact absurd hfuel (Nat.not_lt_zero _)
          | succ fu =>
            simp only [headProto]
            rw [parseAux_eth fu d sv tv inner hd48 hs48 ht16]
            rw [if_neg (by simpa [List.isEmpty_iff] using hinner_ne)]
            have hfu : inner.length < fu := by
              have hlen := ethHB_append_length d sv tv inner
              omega
            obtain ⟨parsed, hp_eq, hp_match⟩ := hparse_rest fu hfu
            simp only [headProto] at hp_eq
            simp only [linkOkB] at hl
            have hmatchfields : ∀ n ∈ schemaNames Proto.eth,
                List.lookup n [(fDst, d), (fSrc, sv), (fType, tv)]
                  = f.lookup n := by
              intro n hn
              rcases (by simpa [schemaNames, schemaOf, ethSchema] using hn :
                n = fDst ∨ n = fSrc ∨ n = fType) with rfl | rfl | rfl
              · rw [hd]; rfl
              · rw [hsv]; rfl
              · rw [htv]; rfl
            cases hnp : nxt.proto with
            | ip =>
              rw [hnp] at hp_eq hl
              simp only [htv] at hl
              simp only [Option.some.injEq, beq_iff_eq] at hl
              subst hl
              rw [if_pos rfl, hp_eq]
              exact ⟨_ :: parsed, rfl,
                List.Forall₂.cons ⟨rfl, rfl, hmatchfields⟩ hp_match⟩
            | raw =>
              rw [hnp] at hp_eq hl
              simp only [htv, Bool.not_eq_true'] at hl
              have htvne : ¬ tv = 0x0800 := by
                intro hc
                rw [hc] at hl
                simp at hl
              rw [if_neg htvne, hp_eq]
              exact ⟨_ :: parsed, rfl,
                List.Forall₂.cons ⟨rfl, rfl, hmatchfields⟩ hp_match⟩
            | eth => rw [hnp] at hl; simp at hl
            | tcp => rw [hnp] at hl; simp at hl
            | udp => rw [hnp] at hl; simp at hl
    | ip =>
      obtain ⟨ver, hVer⟩ := fullyExplicit_lookup _ hfe fVersion
        (show fVersion ∈ schemaNames Proto.ip from by decide)
      obtain ⟨tos, hTos⟩ := fullyExplicit_lookup _ hfe fTos
        (show fTos ∈ schemaNames Proto.ip from by decide)
      obtain ⟨lenv, hLenv⟩ := fullyExplicit_lookup _ hfe fLen
        (show fLen ∈ schemaNames Proto.ip from by decide)
      obtain ⟨idv, hId⟩ := fullyExplicit_lookup _ hfe fId
        (show fId ∈ schemaNames Proto.ip from by decide)
      obtain ⟨fl, hFl⟩ := fullyExplicit_lookup _ hfe fFlags
        (show fFlags ∈ schemaNames Proto.ip from by decide)
      obtain ⟨fr, hFr⟩ := fullyExplicit_lookup _ hfe fFrag
        (show fFrag ∈ schemaNames Proto.ip from by decide)
      obtain ⟨ttl, hTtl⟩ := fullyExplicit_lookup _ hfe fTtl
        (show fTtl ∈ schemaNames Proto.ip from by decide)
      obtain ⟨pv, hPv⟩ := fullyExplicit_lookup _ hfe fProto
        (show fProto ∈ schemaNames Proto.ip from by decide)
      obtain ⟨cv, hCv⟩ := fullyExplicit_lookup _ hfe fChksum
        (show fChksum ∈ schemaNames Proto.ip from by decide)
      obtain ⟨sA, hSA⟩ := fullyExplicit_lookup _ hfe fSrc
        (show fSrc ∈ schemaNames Proto.ip from by decide)
      obtain ⟨dA, hDA⟩ := fullyExplicit_lookup _ hfe fDst
        (show fDst ∈ schemaNames Proto.ip from by decide)
      have hIhl5 : f.lookup fIhl = some 5 := hihl rfl
      have hverB : ver < 16 := inRange_lookup _ hir fVersion
        (show fVersion ∈ schemaNames Proto.ip from by decide) ver hVer
      have htosB : tos < 256 := inRange_lookup _ hir fTos
        (show fTos ∈ schemaNames Proto.ip from by decide) tos hTos
      have hlenB : lenv < 65536 := inRange_lookup _ hir fLen
        (show fLen ∈ schemaNames Proto.ip from by decide) lenv hLenv
      have hidB : idv < 65536 := inRange_lookup _ hir fId
        (show fId ∈ schemaNames Proto.ip from by decide) idv hId
      have hflB : fl < 8 := inRange_lookup _ hir fFlags
        (show fFlags ∈ schemaNames Proto.ip from by decide) fl hFl
      have hfrB : fr < 8192 := inRange_lookup _ hir fFrag
        (show fFrag ∈ schemaNames Proto.ip from by decide) fr hFr
      have httlB : ttl < 256 := inRange_lookup _ hir fTtl
        (show fTtl ∈ schemaNames Proto.ip from by decide) ttl hTtl
      have hpvB : pv < 256 := inRange_lookup _ hir fProto
        (show fProto ∈ schemaNames Proto.ip from by decide) pv hPv
      have hcvB : cv < 65536 := inRange_lookup _ hir fChksum
        (show fChksum ∈ schemaNames Proto.ip from by decide) cv hCv
      have hsAB : sA < 2 ^ 32 := inRange_lookup _ hir fSrc
        (show fSrc ∈ schemaNames Proto.ip from by decide) sA hSA
      have hdAB : dA < 2 ^ 32 := inRange_lookup _ hir fDst
        (show fDst ∈ schemaNames Proto.ip from by decide) dA hDA
      have hld0 : ld = [] := hload (show Proto.ip ≠ Proto.raw from by decide)
      subst hld0
      have hmatchfields : ∀ n ∈ schemaNames Proto.ip,
          List.lookup n [(fVersion, ver), (fIhl, 5), (fTos, tos), (fLen, lenv),
            (fId, idv), (fFlags, fl), (fFrag, fr), (fTtl, ttl), (fProto, pv),
            (fChksum, cv), (fSrc, sA), (fDst, dA)] = f.lookup n := by
        intro n hn
        rcases (by simpa [schemaNames, schemaOf, ipSchema] using hn :
          n = fVersion ∨ n = fIhl ∨ n = fTos ∨ n = fLen ∨ n = fId ∨
          n = fFlags ∨ n = fFrag ∨ n = fTtl ∨ n = fProto ∨ n = fChksum ∨
          n = fSrc ∨ n = fDst) with
          rfl | rfl | rfl | rfl | rfl | rfl | rfl | rfl | rfl | rfl | rfl | rfl
        · rw [hVer]; rfl
        · rw [hIhl5]; rfl
        · rw [hTos]; rfl
        · rw [hLenv]; rfl
        · rw [hId]; rfl
        · rw [hFl]; rfl
        · rw [hFr]; rfl
        · rw [hTtl]; rfl
        · rw [hPv]; rfl
        · rw [hCv]; rfl
        · rw [hSA]; rfl
        · rw [hDA]; rfl
      cases rest with
      | nil =>
        have hserEq : serializeAux ctx [(⟨.ip, f, []⟩ : Layer)]
            = .ok (ipHeaderBytes ver 5 tos lenv idv fl fr ttl pv cv sA dA
              ++ []) := by
          rw [serializeAux_ip]
          simp only [lookupD, ipSrcOf, ipDstOf, hVer, hIhl5, hTos, hLenv, hId,
            hFl, hFr, hTtl, hPv, hCv, hSA, hDA, Option.getD_some]
          rfl
        refine ⟨ipHeaderBytes ver 5 tos lenv idv fl fr ttl pv cv sA dA ++ [],
          hserEq, ?_, ?_⟩
        · intro hc
          have hlen := ipHB_append_length ver 5 tos lenv idv fl fr ttl pv cv
            sA dA ([] : List Nat)
          rw [hc] at hlen
          simp at hlen
        · intro fuel hfuel
          cases fuel with
          | zero => exact absurd hfuel (Nat.not_lt_zero _)
          | succ fu =>
            simp only [headProto]
            rw [parseAux_ip fu ver tos lenv idv fl fr ttl pv cv sA dA []
              hverB htosB hlenB hidB hflB hfrB httlB hpvB hcvB hsAB hdAB]
            simp only [List.isEmpty_nil, if_true]
            exact ⟨_, rfl,
              List.Forall₂.cons ⟨rfl, rfl, hmatchfields⟩ List.Forall₂.nil⟩
      | cons nxt rest' =>
        have hl := hlink nxt rest' rfl
        obtain ⟨inner, hser_rest, hinner_ne, hparse_rest⟩ :=
          ih hwfrest (by simp) ⟨some (ipSrcOf f), some (ipDstOf f)⟩
        have hserEq : serializeAux ctx ((⟨.ip, f, []⟩ : Layer) :: nxt :: rest')
            = .ok (ipHeaderBytes ver 5 tos lenv idv fl fr ttl pv cv sA dA
              ++ inner) := by
          rw [serializeAux_ip, hser_rest]
          simp only [lookupD, ipSrcOf, ipDstOf, hVer, hIhl5, hTos, hLenv, hId,
            hFl, hFr, hTtl, hPv, hCv, hSA, hDA, Option.getD_some]
        refine ⟨ipHeaderBytes ver 5 tos lenv idv fl fr ttl pv cv sA dA ++ inner,
          hserEq, ?_, ?_⟩
        · intro hc
          have hlen := ipHB_append_length ver 5 tos lenv idv fl fr ttl pv cv
            sA dA inner
          rw [hc] at hlen
          simp at hlen
          omega
        · intro fuel hfuel
          cases fuel with
          | zero => exact absurd hfuel (Nat.not_lt_zero _)
          | succ fu =>
            simp only [headProto]
            rw [parseAux_ip fu ver tos lenv idv fl fr ttl pv cv sA dA inner
              hverB htosB hlenB hidB hflB hfrB httlB hpvB hcvB hsAB hdAB]
            rw [if_neg (by simpa [List.isEmpty_iff] using hinner_ne)]
            have hfu : inner.length < fu := by
              have hlen := ipHB_append_length ver 5 tos lenv idv fl fr ttl pv cv
                sA dA inner
              omega
            obtain ⟨parsed, hp_eq, hp_match⟩ := hparse_rest fu hfu
            simp only [headProto] at hp_eq
            simp only [linkOkB] at hl
            cases hnp : nxt.proto with
            | tcp =>
              rw [hnp] at hp_eq hl
              simp only [hPv, Option.some.injEq, beq_iff_eq] at hl
              subst hl
              rw [if_pos rfl, hp_eq]
              exact ⟨_ :: parsed, rfl,
                List.Forall₂.cons ⟨rfl, rfl, hmatchfields⟩ hp_match⟩
            | udp =>
              rw [hnp] at hp_eq hl
              simp only [hPv, Option.some.injEq, beq_iff_eq] at hl
              subst hl
              rw [if_neg (by decide), if_pos rfl, hp_eq]
              exact ⟨_ :: parsed, rfl,
                List.Forall₂.cons ⟨rfl, rfl, hmatchfields⟩ hp_match⟩
            | raw =>
              rw [hnp] at hp_eq hl
              simp only [hPv, Bool.and_eq_true, Bool.not_eq_true',
                beq_eq_false_iff_ne, ne_eq, Option.some.injEq] at hl
              rw [if_neg hl.1, if_neg hl.2, hp_eq]
              exact ⟨_ :: parsed, rfl,
                List.Forall₂.cons ⟨rfl, rfl, hmatchfields⟩ hp_match⟩
            | eth => rw [hnp] at hl; simp at hl
            | ip => rw [hnp] at hl; simp at hl
    | tcp =>
      obtain ⟨sp, hSp⟩ := fullyExplicit_lookup _ hfe fSport
        (show fSport ∈ schemaNames Proto.tcp from by decide)
      obtain ⟨dp, hDp⟩ := fullyExplicit_lookup _ hfe fDport
        (show fDport ∈ schemaNames Proto.tcp from by decide)
      obtain ⟨sq, hSq⟩ := fullyExplicit_lookup _ hfe fSeq
        (show fSeq ∈ schemaNames Proto.tcp from by decide)
      obtain ⟨ak, hAk⟩ := fullyExplicit_lookup _ hfe fAck
        (show fAck ∈ schemaNames Proto.tcp from by decide)
      obtain ⟨rv, hRv⟩ := fullyExplicit_lookup _ hfe fReserved
        (show fReserved ∈ schemaNames Proto.tcp from by decide)
      obtain ⟨fg, hFg⟩ := fullyExplicit_lookup _ hfe fFlags
        (show fFlags ∈ schemaNames Proto.tcp from by decide)
      obtain ⟨wn, hWn⟩ := fullyExplicit_lookup _ hfe fWindow
        (show fWindow ∈ schemaNames Proto.tcp from by decide)
      obtain ⟨cv, hCv⟩ := fullyExplicit_lookup _ hfe fChksum
        (show fChksum ∈ schemaNames Proto.tcp from by decide)
      obtain ⟨ug, hUg⟩ := fullyExplicit_lookup _ hfe fUrgptr
        (show fUrgptr ∈ schemaNames Proto.tcp from by decide)
      have hDofs5 : f.lookup fDataofs = some 5 := hdofs rfl
      have hspB : sp < 65536 := inRange_lookup _ hir fSport
        (show fSport ∈ schemaNames Proto.tcp from by decide) sp hSp
      have hdpB : dp < 65536 := inRange_lookup _ hir fDport
        (show fDport ∈ schemaNames Proto.tcp from by decide) dp hDp
      have hsqB : sq < 2 ^ 32 := inRange_lookup _ hir fSeq
        (show fSeq ∈ schemaNames Proto.tcp from by decide) sq hSq
      have hakB : ak < 2 ^ 32 := inRange_lookup _ hir fAck
        (show fAck ∈ schemaNames Proto.tcp from by decide) ak hAk
      have hrvB : rv < 16 := inRange_lookup _ hir fReserved
        (show fReserved ∈ schemaNames Proto.tcp from by decide) rv hRv
      have hfgB : fg < 256 := inRange_lookup _ hir fFlags
        (show fFlags ∈ schemaNames Proto.tcp from by decide) fg hFg
      have hwnB : wn < 65536 := inRange_lookup _ hir fWindow
        (show fWindow ∈ schemaNames Proto.tcp from by decide) wn hWn
      have hcvB : cv < 65536 := inRange_lookup _ hir fChksum
        (show fChksum ∈ schemaNames Proto.tcp from by decide) cv hCv
      have hugB : ug < 65536 := inRange_lookup _ hir fUrgptr
        (show fUrgptr ∈ schemaNames Proto.tcp from by decide) ug hUg
      have hld0 : ld = [] := hload (show Proto.tcp ≠ Proto.raw from by decide)
      subst hld0
      have hmatchfields : ∀ n ∈ schemaNames Proto.tcp,
          List.lookup n [(fSport, sp), (fDport, dp), (fSeq, sq), (fAck, ak),
            (fDataofs, 5), (fReserved, rv), (fFlags, fg), (fWindow, wn),
            (fChksum, cv), (fUrgptr, ug)] = f.lookup n := by
        intro n hn
        rcases (by simpa [schemaNames, schemaOf, tcpSchema] using hn :
          n = fSport ∨ n = fDport ∨ n = fSeq ∨ n = fAck ∨ n = fDataofs ∨
          n = fReserved ∨ n = fFlags ∨ n = fWindow ∨ n = fChksum ∨
          n = fUrgptr) with
          rfl | rfl | rfl | rfl | rfl | rfl | rfl | rfl | rfl | rfl
        · rw [hSp]; rfl
        · rw [hDp]; rfl
        · rw [hSq]; rfl
        · rw [hAk]; rfl
        · rw [hDofs5]; rfl
        · rw [hRv]; rfl
        · rw [hFg]; rfl
        · rw [hWn]; rfl
        · rw [hCv]; rfl
        · rw [hUg]; rfl
      cases rest with
      | nil =>
        have hserEq : serializeAux ctx [(⟨.tcp, f, []⟩ : Layer)]
            = .ok (tcpHeaderBytes sp dp sq ak 5 rv fg wn cv ug ++ []) := by
          rw [serializeAux_tcp]
          simp only [lookupD, hSp, hDp, hSq, hAk, hDofs5, hRv, hFg, hWn, hCv,
            hUg, Option.getD_some]
          rfl
        refine ⟨tcpHeaderBytes sp dp sq ak 5 rv fg wn cv ug ++ [], hserEq,
          ?_, ?_⟩
        · intro hc
          have hlen := tcpHB_append_length sp dp sq ak 5 rv fg wn cv ug
            ([] : List Nat)
          rw [hc] at hlen
          simp at hlen
        · intro fuel hfuel
          cases fuel with
          | zero => exact absurd hfuel (Nat.not_lt_zero _)
          | succ fu =>
            simp only [headProto]
            rw [parseAux_tcp fu sp dp sq ak rv fg wn cv ug []
              hspB hdpB hsqB hakB hrvB hfgB hwnB hcvB hugB]
            simp only [List.isEmpty_nil, if_true]
            exact ⟨_, rfl,
              List.Forall₂.cons ⟨rfl, rfl, hmatchfields⟩ List.Forall₂.nil⟩
      | cons nxt rest' =>
        have hl := hlink nxt rest' rfl
        obtain ⟨inner, hser_rest, hinner_ne, hparse_rest⟩ :=
          ih hwfrest (by simp) ctx
        have hserEq : serializeAux ctx ((⟨.tcp, f, []⟩ : Layer) :: nxt :: rest')
            = .ok (tcpHeaderBytes sp dp sq ak 5 rv fg wn cv ug ++ inner) := by
          rw [serializeAux_tcp, hser_rest]
          simp only [lookupD, hSp, hDp, hSq, hAk, hDofs5, hRv, hFg, hWn, hCv,
            hUg, Option.getD_some]
        refine ⟨tcpHeaderBytes sp dp sq ak 5 rv fg wn cv ug ++ inner, hserEq,
          ?_, ?_⟩
        · intro hc
          have hlen := tcpHB_append_length sp dp sq ak 5 rv fg wn cv ug inner
          rw [hc] at hlen
          simp at hlen
          omega
        · intro fuel hfuel
          cases fuel with
          | zero => exact absurd hfuel (Nat.not_lt_zero _)
          | succ fu =>
            simp only [headProto]
            rw [parseAux_tcp fu sp dp sq ak rv fg wn cv ug inner
              hspB hdpB hsqB hakB hrvB hfgB hwnB hcvB hugB]
            rw [if_neg (by simpa [List.isEmpty_iff] using hinner_ne)]
            have hfu : inner.length < fu := by
              have hlen := tcpHB_append_length sp dp sq ak 5 rv fg wn cv ug inner
              omega
            obtain ⟨parsed, hp_eq, hp_match⟩ := hparse_rest fu hfu
            simp only [headProto] at hp_eq
            simp only [linkOkB] at hl
            cases hnp : nxt.proto with
            | raw =>
              rw [hnp] at hp_eq
              rw [hp_eq]
              exact ⟨_ :: parsed, rfl,
                List.Forall₂.cons ⟨rfl, rfl, hmatchfields⟩ hp_match⟩
            | eth => rw [hnp] at hl; simp at hl
            | ip => rw [hnp] at hl; simp at hl
            | tcp => rw [hnp] at hl; simp at hl
            | udp => rw [hnp] at hl; simp at hl
    | udp =>
      obtain ⟨sp, hSp⟩ := fullyExplicit_lookup _ hfe fSport
        (show fSport ∈ schemaNames Proto.udp from by decide)
      obtain ⟨dp, hDp⟩ := fullyExplicit_lookup _ hfe fDport
        (show fDport ∈ schemaNames Proto.udp from by decide)
      obtain ⟨lenv, hLenv⟩ := fullyExplicit_lookup _ hfe fLen
        (show fLen ∈ schemaNames Proto.udp from by decide)
      obtain ⟨cv, hCv⟩ := fullyExplicit_lookup _ hfe fChksum
        (show fChksum ∈ schemaNames Proto.udp from by decide)
      have hspB : sp < 65536 := inRange_lookup _ hir fSport
        (show fSport ∈ schemaNames Proto.udp from by decide) sp hSp
      have hdpB : dp < 65536 := inRange_lookup _ hir fDport
        (show fDport ∈ schemaNames Proto.udp from by decide) dp hDp
      have hlenB : lenv < 65536 := inRange_lookup _ hir fLen
        (show fLen ∈ schemaNames Proto.udp from by decide) lenv hLenv
      have hcvB : cv < 65536 := inRange_lookup _ hir fChksum
        (show fChksum ∈ schemaNames Proto.udp from by decide) cv hCv
      have hld0 : ld = [] := hload (show Proto.udp ≠ Proto.raw from by decide)
      subst hld0
      have hmatchfields : ∀ n ∈ schemaNames Proto.udp,
          List.lookup n [(fSport, sp), (fDport, dp), (fLen, lenv),
            (fChksum, cv)] = f.lookup n := by
        intro n hn
        rcases (by simpa [schemaNames, schemaOf, udpSchema] using hn :
          n = fSport ∨ n = fDport ∨ n = fLen ∨ n = fChksum) with
          rfl | rfl | rfl | rfl
        · rw [hSp]; rfl
        · rw [hDp]; rfl
        · rw [hLenv]; rfl
        · rw [hCv]; rfl
      cases rest with
      | nil =>
        have hserEq : serializeAux ctx [(⟨.udp, f, []⟩ : Layer)]
            = .ok (udpHeaderBytes sp dp lenv cv ++ []) := by
          rw [serializeAux_udp]
          simp only [lookupD, hSp, hDp, hLenv, hCv, Option.getD_some]
          rfl
        refine ⟨udpHeaderBytes sp dp lenv cv ++ [], hserEq, ?_, ?_⟩
        · intro hc
          have hlen := udpHB_append_length sp dp lenv cv ([] : List Nat)
          rw [hc] at hlen
          simp at hlen
        · intro fuel hfuel
          cases fuel with
          | zero => exact absurd hfuel (Nat.not_lt_zero _)
          | succ fu =>
            simp only [headProto]
            rw [parseAux_udp fu sp dp lenv cv [] hspB hdpB hlenB hcvB]
            simp only [List.isEmpty_nil, if_true]
            exact ⟨_, rfl,
              List.Forall₂.cons ⟨rfl, rfl, hmatchfields⟩ List.Forall₂.nil⟩
      | cons nxt rest' =>
        have hl := hlink nxt rest' rfl
        obtain ⟨inner, hser_rest, hinner_ne, hparse_rest⟩ :=
          ih hwfrest (by simp) ctx
        have hserEq : serializeAux ctx ((⟨.udp, f, []⟩ : Layer) :: nxt :: rest')
            = .ok (udpHeaderBytes sp dp lenv cv ++ inner) := by
          rw [serializeAux_udp, hser_rest]
          simp only [lookupD, hSp, hDp, hLenv, hCv, Option.getD_some]
        refine ⟨udpHeaderBytes sp dp lenv cv ++ inner, hserEq, ?_, ?_⟩
        · intro hc
          have hlen := udpHB_append_length sp dp lenv cv inner
          rw [hc] at hlen
          simp at hlen
          omega
        · intro fuel hfuel
          cases fuel with
          | zero => exact absurd hfuel (Nat.not_lt_zero _)
          | succ fu =>
            simp only [headProto]
            rw [parseAux_udp fu sp dp lenv cv inner hspB hdpB hlenB hcvB]
            rw [if_neg (by simpa [List.isEmpty_iff] using hinner_ne)]
            have hfu : inner.length < fu := by
              have hlen := udpHB_append_length sp dp lenv cv inner
              omega
            obtain ⟨parsed, hp_eq, hp_match⟩ := hparse_rest fu hfu
            simp only [headProto] at hp_eq
            simp only [linkOkB] at hl
            cases hnp : nxt.proto with
            | raw =>
              rw [hnp] at hp_eq
              rw [hp_eq]
              exact ⟨_ :: parsed, rfl,
                List.Forall₂.cons ⟨rfl, rfl, hmatchfields⟩ hp_match⟩
            | eth => rw [hnp] at hl; simp at hl
            | ip => rw [hnp] at hl; simp at hl
            | tcp => rw [hnp] at hl; simp at hl
            | udp => rw [hnp] at hl; simp at hl

/-- C2 counterexample: a fully explicit two-layer stack (Ethernet with
type 0x0800 over a 3-byte raw payload) serializes fine, but parsing the
serialization does not reconstruct it — the dispatch entry for 0x0800 sends
the parser into a truncated IP header, so the result is a one-layer partial
stack with an error marker, not a stack with matching resolved values. -/
theorem c2_stack_roundtrip_counterexample :
    (c2exStack.all fullyExplicitB) = true ∧
    c2exStack.length = 2 ∧
    serialize c2exStack = .ok c2exBytes ∧
    (parse c2exBytes (headProto c2exStack)).2 = some (.truncated .ip) ∧
    (parse c2exBytes (headProto c2exStack)).1.length = 1 := by decide

/-- C2 as amended: for every nonempty fully explicit stack that is
well-formed — every schema field set and in range, header-length fields
matching the fixed headers, next-protocol fields consistent with the parser's
dispatch table for the nested layer, and raw payloads nonempty and terminal —
serialization succeeds and parsing the serialization reconstructs a stack
whose resolved value for every field of every layer equals that of the
original stack. -/
theorem c2_stack_roundtrip_amended (s : Stack) (hwf : wfStackB s = true)
    (hne : s ≠ []) :
    ∃ out, serialize s = .ok out ∧
      ∃ parsed, parse out (headProto s) = (parsed, none) ∧
        List.Forall₂ layerMatch parsed s := by
  obtain ⟨out, hser, hone, hparse⟩ := stack_roundtrip_aux s hwf hne emptyCtx
  obtain ⟨parsed, hp, hm⟩ := hparse (out.length + 1) (by omega)
  exact ⟨out, hser, parsed, hp, hm⟩

/-- C2 witness: the well-formed fully explicit Ethernet-over-raw stack
round-trips through serialize and parse. -/
theorem c2_stack_roundtrip_amended_witness :
    ∃ out, serialize c2wStack = .ok out ∧
      ∃ parsed, parse out (headProto c2wStack) = (parsed, none) ∧
        List.Forall₂ layerMatch parsed c2wStack :=
  c2_stack_roundtrip_amended c2wStack (by decide) (by decide)

end Codec
